import Mathlib

/-!
# inscope: filtering domains and URLs against a scope file

A shallow embedding of `main.go`.

* Go strings are byte sequences.  A Lean `String` stands for the Go string holding its UTF-8
  encoding, so the strings treated are the well-formed UTF-8 ones; `len` and the slices
  `s[:n]` are taken on the encoded bytes.
* `regexp.Compile`, `(*Regexp).MatchString`, `url.Parse`, `(*URL).Hostname` and the Unicode case
  table are Go standard library code.  They are the fields of `Lib`, and every general statement
  below holds for every `Lib`.
* A reader (`scope.txt`, standard input) is represented by the list of its lines, the text
  between line feeds, a carriage return before the line feed included; `scanLines` gives the
  lines a `bufio.Scanner` yields on it.  Standard output is the list of lines printed.
-/

set_option autoImplicit false

namespace Inscope

/-! ## The standard library interface -/

/-- The standard library functions the program calls and that stay abstract: `regexp.Compile`,
`(*Regexp).MatchString`, `url.Parse`, `(*URL).Hostname`, and `unicode.ToLower` on the runes
above `unicode.MaxASCII` (the Unicode case table). -/
structure Lib where
  /-- Go type `*regexp.Regexp` -/
  Regexp : Type
  /-- Go type `*url.URL` -/
  URL : Type
  /-- Go type `error` -/
  Error : Type
  /-- Go `regexp.Compile` -/
  Compile : String → Except Error Regexp
  /-- Go `(*Regexp).MatchString` -/
  MatchString : Regexp → String → Bool
  /-- Go `url.Parse` -/
  Parse : String → Except Error URL
  /-- Go `(*URL).Hostname` -/
  Hostname : URL → String
  /-- Go `unicode.ToLower` on a rune above `unicode.MaxASCII` -/
  caseTable : Char → Char

/-! ## Strings -/

/-- The UTF-8 encoding of a rune, as byte values. -/
def utf8Encode (c : Char) : List Nat :=
  let v := c.toNat
  if v < 0x80 then [v]
  else if v < 0x800 then [0xC0 + v / 0x40, 0x80 + v % 0x40]
  else if v < 0x10000 then [0xE0 + v / 0x1000, 0x80 + v / 0x40 % 0x40, 0x80 + v % 0x40]
  else [0xF0 + v / 0x40000, 0x80 + v / 0x1000 % 0x40, 0x80 + v / 0x40 % 0x40, 0x80 + v % 0x40]

/-- The bytes of a Go string. -/
def bytes (s : String) : List Nat :=
  s.data.flatMap utf8Encode

/-- Go `len(s)`: the number of bytes. -/
def len (s : String) : Nat :=
  (bytes s).length

/-- Go `unicode.IsSpace`: the Latin-1 cases of the switch, then the `White_Space` table. -/
def IsSpace (r : Char) : Bool :=
  let v := r.toNat
  if v ≤ 0xFF then
    v = 0x09 || v = 0x0A || v = 0x0B || v = 0x0C || v = 0x0D || v = 0x20 || v = 0x85 || v = 0xA0
  else
    v = 0x1680 || (0x2000 ≤ v && v ≤ 0x200A) || v = 0x2028 || v = 0x2029 || v = 0x202F
      || v = 0x205F || v = 0x3000

/-- Go `strings.TrimSpace`: the string without its leading and trailing white space. -/
def TrimSpace (s : String) : String :=
  ⟨((s.data.dropWhile IsSpace).reverse.dropWhile IsSpace).reverse⟩

/-- Go `unicode.ToLower`: the ASCII letters inline, the case table above `MaxASCII`. -/
def runeToLower (L : Lib) (r : Char) : Char :=
  if r.toNat ≤ 0x7F then
    if 'A'.toNat ≤ r.toNat ∧ r.toNat ≤ 'Z'.toNat then Char.ofNat (r.toNat + ('a'.toNat - 'A'.toNat))
    else r
  else L.caseTable r

/-- Go `strings.ToLower`: every rune mapped by `unicode.ToLower`. -/
def ToLower (L : Lib) (s : String) : String :=
  ⟨s.data.map (runeToLower L)⟩

/-! ## The scope checker -/

/-- Go `type scopeChecker struct`: the compiled inclusion and exclusion patterns. -/
structure scopeChecker (L : Lib) where
  patterns : List L.Regexp
  antipatterns : List L.Regexp

/-- Go `isURL`. -/
def isURL (L : Lib) (s : String) : Bool :=
  let s := TrimSpace (ToLower L s)
  if len s < 6 then false
  else (bytes s).take 5 == bytes "http:" || (bytes s).take 6 == bytes "https:"

/-- Go `getHostname`. -/
def getHostname (L : Lib) (s : String) : Except L.Error String :=
  match L.Parse s with
  | .error err => .error err
  | .ok u => .ok (L.Hostname u)

/-- The first loop of `inScope`: `inScope` becomes true at the first pattern that matches, and
the loop is left there. -/
def scanPatterns (L : Lib) (domain : String) : List L.Regexp → Bool
  | [] => false
  | p :: ps => if L.MatchString p domain then true else scanPatterns L domain ps

/-- The second loop of `inScope` and the final `return inScope`: the first antipattern that
matches returns false. -/
def scanAntipatterns (L : Lib) (domain : String) (inScope : Bool) : List L.Regexp → Bool
  | [] => inScope
  | p :: ps => if L.MatchString p domain then false else scanAntipatterns L domain inScope ps

/-- Go `(*scopeChecker).inScope`. -/
def inScope (L : Lib) (s : scopeChecker L) (domain : String) : Bool :=
  if isURL L domain then
    match getHostname L domain with
    | .error _ => false
    | .ok domain => scanAntipatterns L domain (scanPatterns L domain s.patterns) s.antipatterns
  else
    scanAntipatterns L domain (scanPatterns L domain s.patterns) s.antipatterns

/-! ## The loader and the output loop -/

/-- Go `bufio.MaxScanTokenSize`: the size of the buffer of a default `bufio.Scanner`. -/
def MaxScanTokenSize : Nat :=
  64 * 1024

/-- Go `dropCR` of `bufio`: the line without its final carriage return. -/
def dropCR (data : String) : String :=
  if data.data.getLast? = some '\r' then ⟨data.data.dropLast⟩ else data

/-- The values of `sc.Text()` in a loop `for sc.Scan()` on a default `bufio.Scanner` (split
function `ScanLines`) over a reader whose lines are `r`.  A line of `MaxScanTokenSize` bytes or
more, its carriage return counted, does not fit the buffer with its line feed: there `Scan`
returns false with `ErrTooLong`, and the loop ends as it does at the end of the input, since the
program never reads `sc.Err()`. -/
def scanLines : List String → List String
  | [] => []
  | line :: rest =>
    if MaxScanTokenSize ≤ len line then [] else dropCR line :: scanLines rest

/-- The loop of `newScopeChecker` over the lines the scanner yields, from the checker built so
far.  `p[0] == '!'` compares the first byte; where it holds that byte is the whole first rune, so
`p[1:]` is `p` without its first rune. -/
def loadLines (L : Lib) : List String → scopeChecker L → Except L.Error (scopeChecker L)
  | [], s => .ok s
  | text :: rest, s =>
    let p := TrimSpace text
    if p = "" then loadLines L rest s
    else
      let isAnti : Bool := (bytes p).head? = some '!'.toNat
      let p : String := if isAnti then ⟨p.data.drop 1⟩ else p
      match L.Compile p with
      | .error err => .error err
      | .ok re =>
        if isAnti then loadLines L rest { s with antipatterns := s.antipatterns ++ [re] }
        else loadLines L rest { s with patterns := s.patterns ++ [re] }

/-- Go `newScopeChecker`, on a reader whose lines are `r`. -/
def newScopeChecker (L : Lib) (r : List String) : Except L.Error (scopeChecker L) :=
  loadLines L (scanLines r) { patterns := [], antipatterns := [] }

/-- The body of the scanning loop of `main` over the lines the scanner yields: the lines
printed. -/
def printLoop (L : Lib) (checker : scopeChecker L) (showOutScope : Bool) :
    List String → List String
  | [] => []
  | text :: rest =>
    let domain := TrimSpace text
    let isInScope := inScope L checker domain
    if (isInScope && !showOutScope) || (!isInScope && showOutScope) then
      domain :: printLoop L checker showOutScope rest
    else printLoop L checker showOutScope rest

/-- The scanning loop of `main` on a standard input whose lines are `stdin`: the lines
printed. -/
def printLines (L : Lib) (checker : scopeChecker L) (showOutScope : Bool)
    (stdin : List String) : List String :=
  printLoop L checker showOutScope (scanLines stdin)

/-- Go `main`, as the lines written to standard output: `scopeFile` is the lines of `scope.txt`
when `openScopefile` can open it, `showOutScope` the flag `-osp` or `-out-scope`, `stdin` the
lines of standard input.  The messages on standard error are left out. -/
def main (L : Lib) (scopeFile : Option (List String)) (showOutScope : Bool)
    (stdin : List String) : List String :=
  match scopeFile with
  | none => []
  | some sf =>
    match newScopeChecker L sf with
    | .error _ => []
    | .ok checker => printLines L checker showOutScope stdin

/-! ## A concrete instance of the library interface

`sampleLib` implements a fragment of the library, enough to run the definitions: patterns made of
literal characters, `.`, an escaped `\.`, a leading `^` and a trailing `$`; URLs without userinfo,
bracketed IP literal or percent escape.  Whatever lies outside the fragment is reported as an
error, also where Go accepts it, so the examples below stay inside it. -/

/-- One element of a pattern of the fragment. -/
inductive Atom where
  | lit (c : Char)
  | dot
  deriving DecidableEq

/-- A compiled pattern of the fragment: the anchors and the elements between them. -/
structure SampleRegexp where
  atStart : Bool
  atEnd : Bool
  atoms : List Atom
  deriving DecidableEq

/-- The characters that have a meaning of their own in a pattern. -/
def isMeta (c : Char) : Bool :=
  c ∈ ['\\', '.', '+', '*', '?', '(', ')', '|', '[', ']', '{', '}', '^', '$']

/-- The elements of a pattern body and whether it ends in `$`. -/
def sampleAtoms : List Char → Option (List Atom × Bool)
  | [] => some ([], false)
  | ['$'] => some ([], true)
  | '\\' :: '.' :: cs => (sampleAtoms cs).map fun r => (Atom.lit '.' :: r.1, r.2)
  | '.' :: cs => (sampleAtoms cs).map fun r => (Atom.dot :: r.1, r.2)
  | c :: cs => if isMeta c then none else (sampleAtoms cs).map fun r => (Atom.lit c :: r.1, r.2)

/-- The fragment of `regexp.Compile`. -/
def sampleCompile (p : String) : Except String SampleRegexp :=
  let body := if p.data.head? = some '^' then p.data.drop 1 else p.data
  match sampleAtoms body with
  | none => .error "error parsing regexp"
  | some (as, e) => .ok ⟨p.data.head? = some '^', e, as⟩

/-- Whether the elements match at the head of the text (up to its end under `$`). -/
def matchHere (atEnd : Bool) : List Atom → List Char → Bool
  | [], rest => !atEnd || rest.isEmpty
  | _ :: _, [] => false
  | Atom.lit a :: as, c :: cs => a = c && matchHere atEnd as cs
  | Atom.dot :: as, c :: cs => c ≠ '\n' && matchHere atEnd as cs

/-- Whether the elements match somewhere in the text. -/
def matchAnywhere (atEnd : Bool) (as : List Atom) : List Char → Bool
  | [] => matchHere atEnd as []
  | c :: cs => matchHere atEnd as (c :: cs) || matchAnywhere atEnd as cs

/-- The fragment of `(*Regexp).MatchString`. -/
def sampleMatch (re : SampleRegexp) (s : String) : Bool :=
  if re.atStart then matchHere re.atEnd re.atoms s.data else matchAnywhere re.atEnd re.atoms s.data

/-- The fragment of `*url.URL`: the `Host` field. -/
structure SampleURL where
  Host : String
  deriving DecidableEq

/-- The characters a scheme is made of. -/
def isSchemeChar (c : Char) : Bool :=
  c.isAlpha || c.isDigit || c = '+' || c = '-' || c = '.'

/-- Go `getScheme` of `net/url`: the scheme and what follows its colon. -/
def getScheme (raw : List Char) : Except String (List Char × List Char) :=
  let pre := raw.takeWhile isSchemeChar
  match raw.drop pre.length with
  | ':' :: rest =>
    match pre with
    | [] => .error "missing protocol scheme"
    | c :: _ => if c.isAlpha then .ok (pre, rest) else .ok ([], raw)
  | _ => .ok ([], raw)

/-- Go `validOptionalPort` of `net/url`. -/
def validOptionalPort : List Char → Bool
  | [] => true
  | c :: cs => c = ':' && cs.all Char.isDigit

/-- What follows the last colon of a host, the colon included, and what precedes it. -/
def splitLastColon (host : List Char) : Option (List Char × List Char) :=
  let tail := (host.reverse.takeWhile (· ≠ ':')).reverse
  if host.contains ':' then some (host.take (host.length - tail.length - 1), ':' :: tail) else none

/-- The ASCII characters `net/url` accepts in a host without escaping, and every other rune. -/
def hostCharOk (c : Char) : Bool :=
  c.isAlphanum || c.toNat ≥ 0x80
    || c ∈ ['!', '$', '&', '(', ')', '*', '+', ',', ';', '=', ':', '<', '>', '"', '-', '_', '.', '~']
    || c.toNat = 0x27

/-- The fragment of `parseHost` of `net/url`, as in Go 1.26: what follows the first colon of an
unbracketed host has to be a port, so a host holds one colon at most. -/
def sampleParseHost (host : List Char) : Except String String :=
  if !validOptionalPort (host.dropWhile (· ≠ ':')) then .error "invalid port after host"
  else if host.all hostCharOk then .ok ⟨host⟩ else .error "invalid character in host name"

/-- The fragment of `url.Parse`. -/
def sampleParse (rawURL : String) : Except String SampleURL :=
  if rawURL.data.any fun c => c ∈ ['%', '@', '[', ']'] then .error "outside the fragment"
  else
    let u := rawURL.data.takeWhile (· ≠ '#')
    if u.any fun c => c.toNat < 0x20 || c.toNat = 0x7F then
      .error "net/url: invalid control character in URL"
    else
      match getScheme u with
      | .error e => .error e
      | .ok (scheme, rest) =>
        let rest := rest.takeWhile (· ≠ '?')
        if rest.head? ≠ some '/' then
          if scheme ≠ [] then .ok ⟨""⟩
          else if (rest.takeWhile (· ≠ '/')).contains ':' then
            .error "first path segment in URL cannot contain colon"
          else .ok ⟨""⟩
        else if (scheme ≠ [] || rest.take 3 ≠ ['/', '/', '/']) && rest.take 2 = ['/', '/'] then
          match sampleParseHost ((rest.drop 2).takeWhile (· ≠ '/')) with
          | .error e => .error e
          | .ok host => .ok ⟨host⟩
        else .ok ⟨""⟩

/-- Go `(*URL).Hostname` without the bracket case: the host without a valid port. -/
def sampleHostname (u : SampleURL) : String :=
  match splitLastColon u.Host.data with
  | some (host, colonPort) => if validOptionalPort colonPort then ⟨host⟩ else u.Host
  | none => u.Host

/-- The library instance of the examples; its case table leaves the runes above ASCII alone. -/
def sampleLib : Lib where
  Regexp := SampleRegexp
  URL := SampleURL
  Error := String
  Compile := sampleCompile
  MatchString := sampleMatch
  Parse := sampleParse
  Hostname := sampleHostname
  caseTable := id

/-! ## Definitions of the specification -/

/-- The decision the specification describes, on a string `t`: some inclusion pattern matches
`t`, and no exclusion pattern matches `t`. -/
def specInScope (L : Lib) (s : scopeChecker L) (t : String) : Bool :=
  s.patterns.any (fun p => L.MatchString p t) && !s.antipatterns.any (fun p => L.MatchString p t)

/-- A blank line: empty, or made of white space only. -/
def isBlank (text : String) : Bool :=
  text.data.all IsSpace

/-- Whether a string starts with the character `!`. -/
def startsWithBang (p : String) : Bool :=
  p.data.head? = some '!'

/-- The pattern text of a line: the line trimmed of surrounding white space, then without its
one leading `!` when it starts with one. -/
def patternText (text : String) : String :=
  if startsWithBang (TrimSpace text) then ⟨(TrimSpace text).data.drop 1⟩ else TrimSpace text

/-- The trimmed, non-empty lines of a source that do not start with `!`, in file order. -/
def inclusionTexts (r : List String) : List String :=
  ((r.map TrimSpace).filter (fun p => decide (p ≠ ""))).filter (fun p => !startsWithBang p)

/-- The trimmed, non-empty lines of a source that start with `!`, in file order, each without
that one leading `!`. -/
def exclusionTexts (r : List String) : List String :=
  (((r.map TrimSpace).filter (fun p => decide (p ≠ ""))).filter startsWithBang).map
    (fun p => ⟨p.data.drop 1⟩)

/-- The lines of a reader before its first line of `MaxScanTokenSize` bytes or more. -/
def linesRead (r : List String) : List String :=
  r.takeWhile (fun line => decide (len line < MaxScanTokenSize))

/-- A line of `MaxScanTokenSize` bytes, each an `x`. -/
def longLine : String :=
  ⟨List.replicate MaxScanTokenSize 'x'⟩

/-- The variant of `inScope` that evaluates every inclusion pattern and every exclusion pattern,
reduces each list of results with logical OR, and answers `included AND NOT excluded`. -/
def inScopeEvalAll (L : Lib) (s : scopeChecker L) (domain : String) : Bool :=
  if isURL L domain then
    match getHostname L domain with
    | .error _ => false
    | .ok domain =>
      let included := (s.patterns.map fun p => L.MatchString p domain).foldl (· || ·) false
      let excluded := (s.antipatterns.map fun p => L.MatchString p domain).foldl (· || ·) false
      included && !excluded
  else
    let included := (s.patterns.map fun p => L.MatchString p domain).foldl (· || ·) false
    let excluded := (s.antipatterns.map fun p => L.MatchString p domain).foldl (· || ·) false
    included && !excluded

/-- The variant of `inScope` that skips the scan of the exclusion patterns when no inclusion
pattern matched. -/
def inScopeSkipExclusion (L : Lib) (s : scopeChecker L) (domain : String) : Bool :=
  if isURL L domain then
    match getHostname L domain with
    | .error _ => false
    | .ok domain =>
      if scanPatterns L domain s.patterns then scanAntipatterns L domain true s.antipatterns
      else false
  else
    if scanPatterns L domain s.patterns then scanAntipatterns L domain true s.antipatterns
    else false

/-! ## The index and slice expressions with their bounds checks

Go checks every index and slice expression at run time and panics when it is out of range.  The
definitions of this section repeat `isURL`, `newScopeChecker` and `inScope` with these checks made
explicit: `none` stands for the panic. -/

/-- Go `b[i]` on bytes: `none` when `i` is not below the length. -/
def indexByte (b : List Nat) (i : Nat) : Option Nat :=
  if i < b.length then b[i]? else none

/-- Go `b[:n]` on bytes: `none` when `n` exceeds the length. -/
def sliceTo (b : List Nat) (n : Nat) : Option (List Nat) :=
  if n ≤ b.length then some (b.take n) else none

/-- Go `b[n:]` on bytes: `none` when `n` exceeds the length. -/
def sliceFrom (b : List Nat) (n : Nat) : Option (List Nat) :=
  if n ≤ b.length then some (b.drop n) else none

/-- Go `isURL` with the bounds checks of `s[:5]` and `s[:6]`; `s[:6]` is evaluated only when the
first comparison is false. -/
def isURLChecked (L : Lib) (s : String) : Option Bool :=
  let s := TrimSpace (ToLower L s)
  if len s < 6 then some false
  else
    match sliceTo (bytes s) 5 with
    | none => none
    | some a =>
      if a == bytes "http:" then some true
      else
        match sliceTo (bytes s) 6 with
        | none => none
        | some b => some (b == bytes "https:")

/-- The loop of `newScopeChecker` with the bounds checks of `p[0]` and `p[1:]`; `p[1:]` is
evaluated only when `p[0]` is `!`, and the string it yields is `p` without its first rune. -/
def loadLinesChecked (L : Lib) :
    List String → scopeChecker L → Option (Except L.Error (scopeChecker L))
  | [], s => some (.ok s)
  | text :: rest, s =>
    let p := TrimSpace text
    if p = "" then loadLinesChecked L rest s
    else
      match indexByte (bytes p) 0 with
      | none => none
      | some b0 =>
        if b0 = '!'.toNat then
          match sliceFrom (bytes p) 1 with
          | none => none
          | some _ =>
            match L.Compile ⟨p.data.drop 1⟩ with
            | .error err => some (.error err)
            | .ok re => loadLinesChecked L rest { s with antipatterns := s.antipatterns ++ [re] }
        else
          match L.Compile p with
          | .error err => some (.error err)
          | .ok re => loadLinesChecked L rest { s with patterns := s.patterns ++ [re] }

/-- Go `newScopeChecker` with the bounds checks of its loop. -/
def newScopeCheckerChecked (L : Lib) (r : List String) :
    Option (Except L.Error (scopeChecker L)) :=
  loadLinesChecked L (scanLines r) { patterns := [], antipatterns := [] }

/-- Go `(*scopeChecker).inScope` over `isURLChecked`. -/
def inScopeChecked (L : Lib) (s : scopeChecker L) (domain : String) : Option Bool :=
  match isURLChecked L domain with
  | none => none
  | some true =>
    match getHostname L domain with
    | .error _ => some false
    | .ok domain =>
      some (scanAntipatterns L domain (scanPatterns L domain s.patterns) s.antipatterns)
  | some false =>
    some (scanAntipatterns L domain (scanPatterns L domain s.patterns) s.antipatterns)

/-! ## The shape of a URL, in the words of the specification -/

/-- Whether the string `t` begins with the literal `lit`. -/
def startsWith (t lit : String) : Prop :=
  ∃ rest : List Char, t.data = lit.data ++ rest

/-- An ASCII capital letter turned into its small letter, every other rune left alone: two
strings differ in ASCII letter case only when this maps them to the same runes. -/
def asciiLower (c : Char) : Char :=
  if 'A'.toNat ≤ c.toNat ∧ c.toNat ≤ 'Z'.toNat then Char.ofNat (c.toNat + 32) else c

/-! ## The two loops of `inScope` -/

theorem scanPatterns_eq_any (L : Lib) (d : String) (ps : List L.Regexp) :
    scanPatterns L d ps = ps.any (fun p => L.MatchString p d) := by
  induction ps with
  | nil => rfl
  | cons p ps ih => cases hp : L.MatchString p d <;> simp [scanPatterns, hp, ih]

theorem scanAntipatterns_eq (L : Lib) (d : String) (b : Bool) (qs : List L.Regexp) :
    scanAntipatterns L d b qs = (b && !qs.any (fun q => L.MatchString q d)) := by
  induction qs with
  | nil => simp [scanAntipatterns]
  | cons q qs ih => cases hq : L.MatchString q d <;> simp [scanAntipatterns, hq, ih]

theorem inScope_of_not_isURL (L : Lib) (s : scopeChecker L) (d : String)
    (hu : isURL L d = false) : inScope L s d = specInScope L s d := by
  simp [inScope, hu, specInScope, scanPatterns_eq_any, scanAntipatterns_eq]

theorem inScope_of_hostname (L : Lib) (s : scopeChecker L) (d h : String)
    (hu : isURL L d = true) (hh : getHostname L d = .ok h) :
    inScope L s d = specInScope L s h := by
  simp [inScope, hu, hh, specInScope, scanPatterns_eq_any, scanAntipatterns_eq]

theorem inScope_of_parse_error (L : Lib) (s : scopeChecker L) (d : String) (e : L.Error)
    (hu : isURL L d = true) (hp : L.Parse d = .error e) : inScope L s d = false := by
  simp [inScope, hu, getHostname, hp]

theorem specInScope_eq_true_iff (L : Lib) (s : scopeChecker L) (t : String) :
    specInScope L s t = true ↔
      (∃ p ∈ s.patterns, L.MatchString p t = true) ∧
        ∀ q ∈ s.antipatterns, L.MatchString q t = false := by
  simp [specInScope]

/-! ## The classification of one input -/

/-- C1, as stated, fails on a URL: with the scope file `^test$` the input `https://test/path?x=1`
is in scope, and no inclusion pattern matches that input. -/
theorem inScope_iff_matches_counterexample :
    ∃ s : scopeChecker sampleLib, newScopeChecker sampleLib ["^test$"] = .ok s ∧
      ¬ (inScope sampleLib s "https://test/path?x=1" = true ↔
          (∃ p ∈ s.patterns, sampleLib.MatchString p "https://test/path?x=1" = true) ∧
            ∀ q ∈ s.antipatterns, sampleLib.MatchString q "https://test/path?x=1" = false) := by
  refine ⟨_, rfl, ?_⟩
  decide

/-- C1 (amended): for every scope checker and every input `d` that is not URL-shaped, `d` is in
scope if and only if some inclusion pattern matches `d` and no exclusion pattern matches `d`. -/
theorem inScope_iff_matches (L : Lib) (s : scopeChecker L) (d : String)
    (hu : isURL L d = false) :
    inScope L s d = true ↔
      (∃ p ∈ s.patterns, L.MatchString p d = true) ∧
        ∀ q ∈ s.antipatterns, L.MatchString q d = false := by
  rw [inScope_of_not_isURL L s d hu]
  exact specInScope_eq_true_iff L s d

/-- C1 witness: `sub.example.com` is not URL-shaped, and with the scope file `example\.com$` it
is in scope because the pattern matches it and there is no exclusion pattern. -/
theorem inScope_iff_matches_witness :
    ∃ s : scopeChecker sampleLib, newScopeChecker sampleLib ["example\\.com$"] = .ok s ∧
      isURL sampleLib "sub.example.com" = false ∧
      inScope sampleLib s "sub.example.com" = true :=
  ⟨_, rfl, by decide,
    (inScope_iff_matches sampleLib _ "sub.example.com" (by decide)).mpr (by decide)⟩

/-- C2, as stated, fails on a URL: with the scope file `test`, `!path` the input
`https://test/path` matches the inclusion pattern and the exclusion pattern, and it is in scope,
because only its hostname `test` is matched. -/
theorem exclusion_overrides_counterexample :
    ∃ s : scopeChecker sampleLib, newScopeChecker sampleLib ["test", "!path"] = .ok s ∧
      (∃ p ∈ s.patterns, sampleLib.MatchString p "https://test/path" = true) ∧
      (∃ q ∈ s.antipatterns, sampleLib.MatchString q "https://test/path" = true) ∧
      inScope sampleLib s "https://test/path" = true := by
  refine ⟨_, rfl, ?_⟩
  decide

/-- C2 (amended): exclusion overrides inclusion on the string that is matched.  For every scope
checker and every input `d` matching an inclusion pattern and an exclusion pattern, `d` is out of
scope when it is not URL-shaped; and a URL-shaped `d` whose hostname `h` matches an exclusion
pattern is out of scope. -/
theorem exclusion_overrides (L : Lib) (s : scopeChecker L) (d : String) :
    (isURL L d = false →
      (∃ p ∈ s.patterns, L.MatchString p d = true) →
      (∃ q ∈ s.antipatterns, L.MatchString q d = true) → inScope L s d = false) ∧
    (∀ h : String, isURL L d = true → getHostname L d = .ok h →
      (∃ q ∈ s.antipatterns, L.MatchString q h = true) → inScope L s d = false) := by
  constructor
  · intro hu _ hq
    rw [inScope_of_not_isURL L s d hu]
    obtain ⟨q, hq, hm⟩ := hq
    have hany : s.antipatterns.any (fun q => L.MatchString q d) = true :=
      List.any_eq_true.mpr ⟨q, hq, hm⟩
    simp [specInScope, hany]
  · intro h hu hh hq
    rw [inScope_of_hostname L s d h hu hh]
    obtain ⟨q, hq, hm⟩ := hq
    have hany : s.antipatterns.any (fun q => L.MatchString q h) = true :=
      List.any_eq_true.mpr ⟨q, hq, hm⟩
    simp [specInScope, hany]

/-- C2 witness: with the scope file `example\.com$`, `!evil\.example\.com$` the input
`evil.example.com` matches both patterns and is out of scope, and so is the URL
`https://evil.example.com/login`. -/
theorem exclusion_overrides_witness :
    ∃ s : scopeChecker sampleLib,
      newScopeChecker sampleLib ["example\\.com$", "!evil\\.example\\.com$"] = .ok s ∧
      isURL sampleLib "evil.example.com" = false ∧
      (∃ p ∈ s.patterns, sampleLib.MatchString p "evil.example.com" = true) ∧
      (∃ q ∈ s.antipatterns, sampleLib.MatchString q "evil.example.com" = true) ∧
      inScope sampleLib s "evil.example.com" = false ∧
      isURL sampleLib "https://evil.example.com/login" = true ∧
      getHostname sampleLib "https://evil.example.com/login" = .ok "evil.example.com" ∧
      inScope sampleLib s "https://evil.example.com/login" = false :=
  ⟨_, rfl, by decide, by decide, by decide,
    (exclusion_overrides sampleLib _ "evil.example.com").1 (by decide) (by decide) (by decide),
    by decide, rfl,
    (exclusion_overrides sampleLib _ "https://evil.example.com/login").2 "evil.example.com"
      (by decide) rfl (by decide)⟩

/-- C3: `inScope` is the decision of the specification on the normalised string.  For every
scope checker and every input `d`: when `d` is not URL-shaped, `inScope d` is that decision on
`d`; when `d` is URL-shaped and `getHostname d` returns the hostname `h`, it is that decision on
`h`. -/
theorem inScope_eq_specInScope (L : Lib) (s : scopeChecker L) (d : String) :
    (isURL L d = false →
      inScope L s d =
        (s.patterns.any (fun p => L.MatchString p d) &&
          !s.antipatterns.any (fun q => L.MatchString q d))) ∧
    (∀ h : String, isURL L d = true → getHostname L d = .ok h →
      inScope L s d =
        (s.patterns.any (fun p => L.MatchString p h) &&
          !s.antipatterns.any (fun q => L.MatchString q h))) :=
  ⟨fun hu => inScope_of_not_isURL L s d hu, fun h hu hh => inScope_of_hostname L s d h hu hh⟩

/-- C3 witness: with the scope file `^test$`, `!^dev` the URL `https://test/path?x=1` has the
hostname `test` and is decided on it, and the bare `devtest` is decided on itself. -/
theorem inScope_eq_specInScope_witness :
    ∃ s : scopeChecker sampleLib, newScopeChecker sampleLib ["^test$", "!^dev"] = .ok s ∧
      isURL sampleLib "https://test/path?x=1" = true ∧
      getHostname sampleLib "https://test/path?x=1" = .ok "test" ∧
      inScope sampleLib s "https://test/path?x=1" = specInScope sampleLib s "test" ∧
      isURL sampleLib "devtest" = false ∧
      inScope sampleLib s "devtest" = specInScope sampleLib s "devtest" :=
  ⟨_, rfl, by decide, rfl,
    (inScope_eq_specInScope sampleLib _ "https://test/path?x=1").2 "test" (by decide) rfl,
    by decide,
    (inScope_eq_specInScope sampleLib _ "devtest").1 (by decide)⟩

/-- C4: malformed URL-shaped input is out of scope.  For every scope checker and every input `d`
that is URL-shaped and that `url.Parse` rejects, `inScope d` returns false, whatever the
patterns are. -/
theorem inScope_malformed_url (L : Lib) (s : scopeChecker L) (d : String) (e : L.Error)
    (hu : isURL L d = true) (hp : L.Parse d = .error e) : inScope L s d = false :=
  inScope_of_parse_error L s d e hu hp

/-- C4 witness: `http://a b.com/` is URL-shaped and is rejected for the blank in its host; with
the scope file `http`, whose pattern matches the raw input, and no exclusion pattern, it is out
of scope. -/
theorem inScope_malformed_url_witness :
    ∃ s : scopeChecker sampleLib, newScopeChecker sampleLib ["http"] = .ok s ∧
      isURL sampleLib "http://a b.com/" = true ∧
      sampleLib.Parse "http://a b.com/" = .error "invalid character in host name" ∧
      (∃ p ∈ s.patterns, sampleLib.MatchString p "http://a b.com/" = true) ∧
      s.antipatterns = [] ∧
      inScope sampleLib s "http://a b.com/" = false :=
  ⟨_, rfl, by decide, rfl, by decide, rfl,
    inScope_malformed_url sampleLib _ "http://a b.com/" "invalid character in host name"
      (by decide) rfl⟩

/-- C5: the classification of a URL depends on its hostname only.  For every scope checker and
any two URL-shaped inputs that parse with the same hostname, `inScope` returns the same value. -/
theorem inScope_same_hostname (L : Lib) (s : scopeChecker L) (u1 u2 h : String)
    (h1 : isURL L u1 = true) (h2 : isURL L u2 = true)
    (hh1 : getHostname L u1 = .ok h) (hh2 : getHostname L u2 = .ok h) :
    inScope L s u1 = inScope L s u2 := by
  rw [inScope_of_hostname L s u1 h h1 hh1, inScope_of_hostname L s u2 h h2 hh2]

/-- C5 witness: `https://a.com/x?y=1` and `http://a.com:8080/z#top` differ in scheme, port, path,
query and fragment, have the hostname `a.com`, and are classified alike. -/
theorem inScope_same_hostname_witness :
    ∃ s : scopeChecker sampleLib, newScopeChecker sampleLib ["a\\.com$"] = .ok s ∧
      getHostname sampleLib "https://a.com/x?y=1" = .ok "a.com" ∧
      getHostname sampleLib "http://a.com:8080/z#top" = .ok "a.com" ∧
      inScope sampleLib s "https://a.com/x?y=1" = inScope sampleLib s "http://a.com:8080/z#top" :=
  ⟨_, rfl, rfl, rfl,
    inScope_same_hostname sampleLib _ "https://a.com/x?y=1" "http://a.com:8080/z#top" "a.com"
      (by decide) (by decide) rfl rfl⟩

/-! ## Blank lines and the leading `!` -/

theorem TrimSpace_eq_empty_iff (s : String) : TrimSpace s = "" ↔ isBlank s = true := by
  have hmk : ∀ l : List Char, (String.mk l = "") ↔ l = [] := by
    intro l
    constructor
    · intro h
      have := congrArg String.data h
      simpa using this
    · intro h
      subst h
      rfl
  unfold TrimSpace isBlank
  rw [hmk, List.reverse_eq_nil_iff, List.dropWhile_eq_nil_iff, List.all_eq_true]
  constructor
  · intro h
    have hnil : s.data.dropWhile IsSpace = [] := by
      by_contra hne
      have hhead := List.head_dropWhile_not IsSpace s.data hne
      have hmem : (s.data.dropWhile IsSpace).head hne ∈ (s.data.dropWhile IsSpace).reverse :=
        List.mem_reverse.mpr (List.head_mem hne)
      have := h _ hmem
      simp [hhead] at this
    exact List.dropWhile_eq_nil_iff.mp hnil
  · intro h x hx
    have hx2 : x ∈ s.data.dropWhile IsSpace := List.mem_reverse.mp hx
    exact h x ((List.dropWhile_sublist IsSpace).subset hx2)

theorem trim_append (a x b : List Char) (ha : ∀ c ∈ a, IsSpace c = true)
    (hb : ∀ c ∈ b, IsSpace c = true) :
    (((a ++ x ++ b).dropWhile IsSpace).reverse.dropWhile IsSpace).reverse
      = ((x.dropWhile IsSpace).reverse.dropWhile IsSpace).reverse := by
  rw [List.append_assoc, List.dropWhile_append_of_pos ha]
  by_cases hx : x.dropWhile IsSpace = []
  · have hall : ∀ c ∈ x ++ b, IsSpace c = true := by
      intro c hc
      rcases List.mem_append.mp hc with hc | hc
      · exact List.dropWhile_eq_nil_iff.mp hx c hc
      · exact hb c hc
    rw [List.dropWhile_eq_nil_iff.mpr hall, hx]
  · have hsplit : (x ++ b).dropWhile IsSpace = x.dropWhile IsSpace ++ b := by
      rw [List.dropWhile_append]
      simp [hx]
    rw [hsplit, List.reverse_append]
    rw [List.dropWhile_append_of_pos (fun c hc => hb c (List.mem_reverse.mp hc))]

theorem utf8Encode_head (c : Char) :
    (utf8Encode c).head? = some '!'.toNat ↔ c = '!' := by
  constructor
  · intro h
    unfold utf8Encode at h
    have h33 : '!'.toNat = 33 := rfl
    rw [h33] at h
    apply Char.ext
    apply UInt32.ext
    have : c.toNat = 33 := by
      simp only at h
      split_ifs at h <;> simp at h <;> omega
    exact this
  · intro h
    subst h
    rfl

theorem bytes_head_bang (p : String) :
    (decide ((bytes p).head? = some '!'.toNat)) = startsWithBang p := by
  unfold bytes startsWithBang
  rcases hp : p.data with _ | ⟨c, cs⟩
  · simp
  · have hne : utf8Encode c ≠ [] := by
      unfold utf8Encode
      simp only
      split_ifs <;> simp
    have hh : (List.flatMap (c :: cs) utf8Encode).head? = (utf8Encode c).head? := by
      rw [List.flatMap_cons]
      cases hc : utf8Encode c with
      | nil => exact absurd hc hne
      | cons b bs => rfl
    rw [hh]
    by_cases hc : c = '!'
    · subst hc; rfl
    · have : ¬ (utf8Encode c).head? = some '!'.toNat := fun h => hc ((utf8Encode_head c).mp h)
      simp [hc]
      exact this

/-! ## The loader -/

theorem loadLines_cons_blank (L : Lib) (text : String) (rest : List String) (s : scopeChecker L)
    (hb : TrimSpace text = "") : loadLines L (text :: rest) s = loadLines L rest s := by
  simp [loadLines, hb]

theorem loadLines_cons (L : Lib) (text : String) (rest : List String) (s : scopeChecker L)
    (hb : TrimSpace text ≠ "") :
    loadLines L (text :: rest) s =
      match L.Compile (patternText text) with
      | .error err => .error err
      | .ok re =>
        if startsWithBang (TrimSpace text) then
          loadLines L rest { s with antipatterns := s.antipatterns ++ [re] }
        else loadLines L rest { s with patterns := s.patterns ++ [re] } := by
  have hbang := bytes_head_bang (TrimSpace text)
  cases hs : startsWithBang (TrimSpace text)
  · rw [hs] at hbang
    have hb2 : ¬ (bytes (TrimSpace text)).head? = some '!'.toNat := by simpa using hbang
    simp only [loadLines, hb, patternText, hs, if_false, hb2, decide_False, Bool.false_eq_true]
  · rw [hs] at hbang
    have hb2 : (bytes (TrimSpace text)).head? = some '!'.toNat := by simpa using hbang
    simp only [loadLines, hb, patternText, hs, if_true, hb2, decide_True, if_false]

theorem inclusionTexts_cons (text : String) (rest : List String) :
    inclusionTexts (text :: rest) =
      (if TrimSpace text ≠ "" ∧ startsWithBang (TrimSpace text) = false then [patternText text]
        else []) ++ inclusionTexts rest := by
  unfold inclusionTexts patternText
  by_cases hb : TrimSpace text = ""
  · simp [hb]
  · cases hs : startsWithBang (TrimSpace text) <;> simp [hb, hs]

theorem exclusionTexts_cons (text : String) (rest : List String) :
    exclusionTexts (text :: rest) =
      (if TrimSpace text ≠ "" ∧ startsWithBang (TrimSpace text) = true then [patternText text]
        else []) ++ exclusionTexts rest := by
  unfold exclusionTexts patternText
  by_cases hb : TrimSpace text = ""
  · simp [hb]
  · cases hs : startsWithBang (TrimSpace text) <;> simp [hb, hs]

theorem loadLines_ok (L : Lib) (r : List String) :
    ∀ s0 s : scopeChecker L, loadLines L r s0 = .ok s →
      s.patterns.map Except.ok = s0.patterns.map Except.ok ++ (inclusionTexts r).map L.Compile ∧
      s.antipatterns.map Except.ok =
        s0.antipatterns.map Except.ok ++ (exclusionTexts r).map L.Compile ∧
      s.patterns.length + s.antipatterns.length =
        s0.patterns.length + s0.antipatterns.length + (r.filter (fun t => !isBlank t)).length := by
  induction r with
  | nil =>
    intro s0 s h
    simp only [loadLines, Except.ok.injEq] at h
    subst h
    simp [inclusionTexts, exclusionTexts]
  | cons text rest ih =>
    intro s0 s h
    by_cases hb : TrimSpace text = ""
    · rw [loadLines_cons_blank L text rest s0 hb] at h
      have hbl : isBlank text = true := (TrimSpace_eq_empty_iff text).mp hb
      have := ih s0 s h
      simpa [inclusionTexts_cons, exclusionTexts_cons, hb, hbl] using this
    · rw [loadLines_cons L text rest s0 hb] at h
      have hbl : isBlank text = false := by
        cases hx : isBlank text
        · rfl
        · exact absurd ((TrimSpace_eq_empty_iff text).mpr hx) hb
      cases hc : L.Compile (patternText text) with
      | error e => simp [hc] at h
      | ok re =>
        simp only [hc] at h
        cases hs : startsWithBang (TrimSpace text)
        · simp only [hs, Bool.false_eq_true, if_false] at h
          obtain ⟨h1, h2, h3⟩ := ih _ s h
          refine ⟨?_, ?_, ?_⟩
          · simp [h1, inclusionTexts_cons, hb, hs, hc]
          · simp [h2, exclusionTexts_cons, hb, hs]
          · simp [h3, hbl]; omega
        · simp only [hs, if_true] at h
          obtain ⟨h1, h2, h3⟩ := ih _ s h
          refine ⟨?_, ?_, ?_⟩
          · simp [h1, inclusionTexts_cons, hb, hs]
          · simp [h2, exclusionTexts_cons, hb, hs, hc]
          · simp [h3, hbl]; omega

theorem isBlank_eq_false_iff (text : String) : isBlank text = false ↔ TrimSpace text ≠ "" := by
  rw [Ne, TrimSpace_eq_empty_iff]
  simp

theorem loadLines_first_error (L : Lib) (r : List String) :
    ∀ (s0 : scopeChecker L) (e : L.Error), loadLines L r s0 = .error e →
      ∃ pre text post, r = pre ++ text :: post ∧ isBlank text = false ∧
        L.Compile (patternText text) = .error e ∧
        ∀ t ∈ pre, isBlank t = false → ∃ re, L.Compile (patternText t) = .ok re := by
  induction r with
  | nil =>
    intro s0 e h
    simp [loadLines] at h
  | cons text rest ih =>
    intro s0 e h
    by_cases hb : TrimSpace text = ""
    · rw [loadLines_cons_blank L text rest s0 hb] at h
      obtain ⟨pre, t, post, hr, hbt, hc, hpre⟩ := ih s0 e h
      refine ⟨text :: pre, t, post, by simp [hr], hbt, hc, ?_⟩
      intro x hx hxb
      rcases List.mem_cons.mp hx with hx | hx
      · subst hx
        exact absurd hb ((isBlank_eq_false_iff x).mp hxb)
      · exact hpre x hx hxb
    · rw [loadLines_cons L text rest s0 hb] at h
      cases hc : L.Compile (patternText text) with
      | error e2 =>
        simp only [hc, Except.error.injEq] at h
        subst h
        exact ⟨[], text, rest, rfl, (isBlank_eq_false_iff text).mpr hb, hc, by simp⟩
      | ok re =>
        simp only [hc] at h
        have hrest : ∃ s1, loadLines L rest s1 = .error e := by
          cases hs : startsWithBang (TrimSpace text)
          · simp only [hs, Bool.false_eq_true, if_false] at h
            exact ⟨_, h⟩
          · simp only [hs, if_true] at h
            exact ⟨_, h⟩
        obtain ⟨s1, h1⟩ := hrest
        obtain ⟨pre, t, post, hr, hbt, hct, hpre⟩ := ih s1 e h1
        refine ⟨text :: pre, t, post, by simp [hr], hbt, hct, ?_⟩
        intro x hx hxb
        rcases List.mem_cons.mp hx with hx | hx
        · subst hx
          exact ⟨re, hc⟩
        · exact hpre x hx hxb

theorem loadLines_error_of_invalid (L : Lib) (r : List String) :
    ∀ (s0 : scopeChecker L) (text : String), text ∈ r → isBlank text = false →
      (∃ e, L.Compile (patternText text) = .error e) → ∃ e, loadLines L r s0 = .error e := by
  induction r with
  | nil =>
    intro s0 text hm
    simp at hm
  | cons x rest ih =>
    intro s0 text hm hbt hce
    by_cases hb : TrimSpace x = ""
    · rw [loadLines_cons_blank L x rest s0 hb]
      rcases List.mem_cons.mp hm with hx | hx
      · subst hx
        exact absurd hb ((isBlank_eq_false_iff text).mp hbt)
      · exact ih s0 text hx hbt hce
    · rw [loadLines_cons L x rest s0 hb]
      cases hc : L.Compile (patternText x) with
      | error e2 => exact ⟨e2, rfl⟩
      | ok re =>
        have hx : text ∈ rest := by
          rcases List.mem_cons.mp hm with hx | hx
          · subst hx
            obtain ⟨e, he⟩ := hce
            rw [hc] at he
            cases he
          · exact hx
        cases hs : startsWithBang (TrimSpace x)
        · simp only [Bool.false_eq_true, if_false]
          exact ih _ text hx hbt hce
        · simp only [if_true]
          exact ih _ text hx hbt hce

theorem patternText_of_blank (text : String) (hb : isBlank text = true) :
    patternText text = "" := by
  have h := (TrimSpace_eq_empty_iff text).mpr hb
  unfold patternText
  rw [h]
  rfl

/-! ## The scanner -/

theorem TrimSpace_dropCR (s : String) : TrimSpace (dropCR s) = TrimSpace s := by
  unfold dropCR
  split_ifs with h
  · have hs : s.data = [] ++ s.data.dropLast ++ ['\r'] := by
      rw [List.nil_append]
      exact (List.dropLast_append_getLast? _ h).symm
    unfold TrimSpace
    congr 1
    conv_rhs => rw [hs]
    exact (trim_append [] s.data.dropLast ['\r'] (by simp) (by decide)).symm
  · rfl

theorem scanLines_eq_map (r : List String) : scanLines r = (linesRead r).map dropCR := by
  induction r with
  | nil => rfl
  | cons line rest ih =>
    by_cases h : len line < MaxScanTokenSize
    · have h2 : ¬ MaxScanTokenSize ≤ len line := by omega
      simp [scanLines, linesRead, h, h2, List.takeWhile_cons]
      exact ih
    · have h2 : MaxScanTokenSize ≤ len line := by omega
      simp [scanLines, linesRead, h, h2, List.takeWhile_cons]

theorem linesRead_of_short (r : List String) (h : ∀ text ∈ r, len text < MaxScanTokenSize) :
    linesRead r = r := by
  induction r with
  | nil => rfl
  | cons line rest ih =>
    have h1 := h line (List.mem_cons_self _ _)
    have h2 := ih fun t ht => h t (List.mem_cons_of_mem _ ht)
    unfold linesRead at h2 ⊢
    simp [List.takeWhile_cons, h1, h2]

theorem mem_of_mem_linesRead (r : List String) (text : String) (h : text ∈ linesRead r) :
    text ∈ r :=
  (List.takeWhile_sublist _).subset h

theorem linesRead_append_long (pre post : List String)
    (h : ∀ text ∈ pre, len text < MaxScanTokenSize) (line : String)
    (hl : MaxScanTokenSize ≤ len line) : linesRead (pre ++ line :: post) = pre := by
  induction pre with
  | nil =>
    have h2 : ¬ len line < MaxScanTokenSize := by omega
    simp [linesRead, List.takeWhile_cons, h2]
  | cons a pre ih =>
    have h1 := h a (List.mem_cons_self _ _)
    have h2 := ih fun t ht => h t (List.mem_cons_of_mem _ ht)
    unfold linesRead at h2 ⊢
    simp [List.takeWhile_cons, h1, h2]

theorem linesRead_append_short (pre post : List String)
    (h : ∀ text ∈ pre, len text < MaxScanTokenSize) :
    linesRead (pre ++ post) = pre ++ linesRead post := by
  induction pre with
  | nil => rfl
  | cons a pre ih =>
    have h1 := h a (List.mem_cons_self _ _)
    have h2 := ih fun t ht => h t (List.mem_cons_of_mem _ ht)
    unfold linesRead at h2 ⊢
    simp [List.takeWhile_cons, h1, h2]

theorem linesRead_append_singleton (r : List String) (text : String) :
    linesRead (r ++ [text]) = linesRead r ∨ linesRead (r ++ [text]) = linesRead r ++ [text] := by
  induction r with
  | nil =>
    by_cases h : len text < MaxScanTokenSize
    · right
      simp [linesRead, List.takeWhile_cons, h]
    · left
      simp [linesRead, List.takeWhile_cons, h]
  | cons a r ih =>
    by_cases h : len a < MaxScanTokenSize
    · unfold linesRead at ih ⊢
      rcases ih with ih | ih
      · left
        simp [List.takeWhile_cons, h, ih]
      · right
        simp [List.takeWhile_cons, h, ih]
    · left
      simp [linesRead, List.takeWhile_cons, h]

theorem len_replicate (c : Char) (hc : c.toNat < 0x80) (n : Nat) :
    len ⟨List.replicate n c⟩ = n := by
  unfold len bytes
  induction n with
  | zero => rfl
  | succ n ih =>
    have he : utf8Encode c = [c.toNat] := by
      unfold utf8Encode
      simp [hc]
    rw [List.replicate_succ, List.flatMap_cons, he, List.length_append, ih]
    simp
    omega

theorem len_longLine : len longLine = MaxScanTokenSize :=
  len_replicate 'x' (by decide) MaxScanTokenSize

theorem isBlank_longLine : isBlank longLine = false := by
  have h : MaxScanTokenSize = 65535 + 1 := rfl
  unfold isBlank longLine
  rw [h, List.replicate_succ, List.all_cons]
  have hx : IsSpace 'x' = false := by decide
  rw [hx]
  rfl

theorem linesRead_long (pre post : List String)
    (h : ∀ text ∈ pre, len text < MaxScanTokenSize) :
    linesRead (pre ++ longLine :: post) = pre :=
  linesRead_append_long pre post h longLine (by rw [len_longLine])

theorem loadLines_trim_congr (L : Lib) (r : List String) :
    ∀ (r' : List String), r.map TrimSpace = r'.map TrimSpace →
      ∀ s0 : scopeChecker L, loadLines L r s0 = loadLines L r' s0 := by
  induction r with
  | nil =>
    intro r' h s0
    cases r' with
    | nil => rfl
    | cons a r' => simp at h
  | cons text rest ih =>
    intro r' h s0
    cases r' with
    | nil => simp at h
    | cons text' rest' =>
      simp only [List.map_cons, List.cons.injEq] at h
      obtain ⟨h1, h2⟩ := h
      simp only [loadLines, h1, ih rest' h2]

theorem printLoop_trim_congr (L : Lib) (checker : scopeChecker L) (showOutScope : Bool)
    (r : List String) :
    ∀ (r' : List String), r.map TrimSpace = r'.map TrimSpace →
      printLoop L checker showOutScope r = printLoop L checker showOutScope r' := by
  induction r with
  | nil =>
    intro r' h
    cases r' with
    | nil => rfl
    | cons a r' => simp at h
  | cons text rest ih =>
    intro r' h
    cases r' with
    | nil => simp at h
    | cons text' rest' =>
      simp only [List.map_cons, List.cons.injEq] at h
      obtain ⟨h1, h2⟩ := h
      simp only [printLoop, h1, ih rest' h2]

theorem scanLines_map_trim (r : List String) :
    (scanLines r).map TrimSpace = (linesRead r).map TrimSpace := by
  rw [scanLines_eq_map, List.map_map]
  apply List.map_congr_left
  intro t _
  exact TrimSpace_dropCR t

theorem newScopeChecker_eq (L : Lib) (r : List String) :
    newScopeChecker L r = loadLines L (linesRead r) { patterns := [], antipatterns := [] } :=
  loadLines_trim_congr L _ _ (scanLines_map_trim r) _

theorem newScopeChecker_of_short (L : Lib) (r : List String)
    (h : ∀ text ∈ r, len text < MaxScanTokenSize) :
    newScopeChecker L r = loadLines L r { patterns := [], antipatterns := [] } := by
  rw [newScopeChecker_eq, linesRead_of_short r h]

theorem printLines_eq (L : Lib) (checker : scopeChecker L) (showOutScope : Bool)
    (stdin : List String) :
    printLines L checker showOutScope stdin
      = printLoop L checker showOutScope (linesRead stdin) :=
  printLoop_trim_congr L checker showOutScope _ _ (scanLines_map_trim stdin)

theorem printLines_of_short (L : Lib) (checker : scopeChecker L) (showOutScope : Bool)
    (stdin : List String) (h : ∀ text ∈ stdin, len text < MaxScanTokenSize) :
    printLines L checker showOutScope stdin = printLoop L checker showOutScope stdin := by
  rw [printLines_eq, linesRead_of_short stdin h]

theorem newScopeChecker_long (L : Lib) (pre post : List String)
    (h : ∀ text ∈ pre, len text < MaxScanTokenSize) :
    newScopeChecker L (pre ++ longLine :: post)
      = loadLines L pre { patterns := [], antipatterns := [] } := by
  rw [newScopeChecker_eq, linesRead_long pre post h]

theorem printLines_long (L : Lib) (checker : scopeChecker L) (showOutScope : Bool)
    (pre post : List String) (h : ∀ text ∈ pre, len text < MaxScanTokenSize) :
    printLines L checker showOutScope (pre ++ longLine :: post)
      = printLoop L checker showOutScope pre := by
  rw [printLines_eq, linesRead_long pre post h]

theorem mem_linesRead_of_short (pre post : List String) (text : String)
    (h : ∀ t ∈ pre, len t < MaxScanTokenSize) (ht : len text < MaxScanTokenSize) :
    text ∈ linesRead (pre ++ text :: post) := by
  rw [linesRead_append_short pre _ h]
  apply List.mem_append_right
  simp [linesRead, List.takeWhile_cons, ht]

theorem sampleMatch_empty (d : String) : sampleMatch ⟨false, false, []⟩ d = true := by
  unfold sampleMatch
  cases d.data <;> simp [matchAnywhere, matchHere]

theorem main_of_ok (L : Lib) (sf : List String) (checker : scopeChecker L)
    (showOutScope : Bool) (stdin : List String) (h : newScopeChecker L sf = .ok checker) :
    main L (some sf) showOutScope stdin = printLines L checker showOutScope stdin := by
  simp [main, h]

/-- C7, as stated, fails on a source with a long line: the scanner stops at a line of
`MaxScanTokenSize` bytes and `sc.Err()` is not read, so the source `a`, that line, `b` loads with
one pattern, and it has three non-blank lines. -/
theorem newScopeChecker_lists_counterexample :
    ∃ s : scopeChecker sampleLib, newScopeChecker sampleLib (["a"] ++ longLine :: ["b"]) = .ok s ∧
      s.patterns.length + s.antipatterns.length = 1 ∧
      ((["a"] ++ longLine :: ["b"]).filter (fun t => !isBlank t)).length = 3 := by
  refine ⟨⟨[⟨false, false, [Atom.lit 'a']⟩], []⟩, ?_, rfl, ?_⟩
  · rw [newScopeChecker_long sampleLib ["a"] ["b"] (by decide)]
    rfl
  · have ha : isBlank "a" = false := by decide
    have hb : isBlank "b" = false := by decide
    simp [List.filter_cons, ha, hb, isBlank_longLine]

/-- C7 (amended): the result of the loader.  Whenever `newScopeChecker` succeeds on a source
whose lines are all shorter than `MaxScanTokenSize` (65536) bytes, its inclusion list is the
compiled forms of the trimmed, non-empty lines that do not start with `!`, in file order, its
exclusion list is the compiled forms of the trimmed, non-empty lines that start with `!`, without
that one `!`, in file order, and the two lists together have as many entries as the source has
non-blank lines. -/
theorem newScopeChecker_lists (L : Lib) (r : List String) (s : scopeChecker L)
    (hshort : ∀ text ∈ r, len text < MaxScanTokenSize)
    (h : newScopeChecker L r = .ok s) :
    s.patterns.map Except.ok = (inclusionTexts r).map L.Compile ∧
    s.antipatterns.map Except.ok = (exclusionTexts r).map L.Compile ∧
    s.patterns.length + s.antipatterns.length = (r.filter (fun t => !isBlank t)).length := by
  rw [newScopeChecker_of_short L r hshort] at h
  have := loadLines_ok L r _ s h
  simpa using this

/-- C7 witness: a source of five lines, two of them blank, one starting with `!` between
blanks. -/
theorem newScopeChecker_lists_witness :
    ∃ s : scopeChecker sampleLib,
      newScopeChecker sampleLib ["example\\.com$", "", " !evil\\.example\\.com$ ", "  ", "^test$"]
        = .ok s ∧
      inclusionTexts ["example\\.com$", "", " !evil\\.example\\.com$ ", "  ", "^test$"]
        = ["example\\.com$", "^test$"] ∧
      exclusionTexts ["example\\.com$", "", " !evil\\.example\\.com$ ", "  ", "^test$"]
        = ["evil\\.example\\.com$"] ∧
      s.patterns.map Except.ok =
        (inclusionTexts ["example\\.com$", "", " !evil\\.example\\.com$ ", "  ", "^test$"]).map
          sampleLib.Compile ∧
      s.patterns.length + s.antipatterns.length = 3 :=
  ⟨_, rfl, by decide, by decide,
    (newScopeChecker_lists sampleLib
      ["example\\.com$", "", " !evil\\.example\\.com$ ", "  ", "^test$"] _ (by decide) rfl).1,
    (newScopeChecker_lists sampleLib
      ["example\\.com$", "", " !evil\\.example\\.com$ ", "  ", "^test$"] _ (by decide) rfl).2.2⟩

/-- C8, as stated, fails on a source with a long line: in the source `a`, a line of
`MaxScanTokenSize` bytes, `(` the last line does not compile, and the load succeeds, because the
scanner stops at the long line. -/
theorem newScopeChecker_all_or_nothing_counterexample :
    (∃ s : scopeChecker sampleLib,
      newScopeChecker sampleLib (["a"] ++ longLine :: ["("]) = .ok s) ∧
    ∃ text ∈ ["a"] ++ longLine :: ["("], isBlank text = false ∧
      ∃ e, sampleLib.Compile (patternText text) = .error e := by
  refine ⟨⟨⟨[⟨false, false, [Atom.lit 'a']⟩], []⟩, ?_⟩, "(", ?_, by decide, _, rfl⟩
  · rw [newScopeChecker_long sampleLib ["a"] ["("] (by decide)]
    rfl
  · exact List.mem_append_right _ (List.mem_cons_of_mem _ (List.mem_cons_self _ _))

/-- C8 (amended): all-or-nothing load.  On a source whose lines are all shorter than
`MaxScanTokenSize` (65536) bytes, `newScopeChecker` fails if and only if the pattern text of some
non-blank line (the line trimmed, then without its one leading `!`) does not compile; the error it
returns is the compile error of the first such line, whatever compiled before it, and no checker
is returned; when every pattern text compiles it succeeds.  Where the empty pattern compiles, as
it does in Go, the blank lines need not be set apart. -/
theorem newScopeChecker_all_or_nothing (L : Lib) (r : List String)
    (hshort : ∀ text ∈ r, len text < MaxScanTokenSize) :
    ((∃ e, newScopeChecker L r = .error e) ↔
      ∃ text ∈ r, isBlank text = false ∧ ∃ e, L.Compile (patternText text) = .error e) ∧
    (∀ e, newScopeChecker L r = .error e →
      ∃ pre text post, r = pre ++ text :: post ∧ isBlank text = false ∧
        L.Compile (patternText text) = .error e ∧
        ∀ t ∈ pre, isBlank t = false → ∃ re, L.Compile (patternText t) = .ok re) ∧
    ((∀ text ∈ r, isBlank text = false → ∃ re, L.Compile (patternText text) = .ok re) →
      ∃ s, newScopeChecker L r = .ok s) ∧
    ((∃ re, L.Compile "" = .ok re) →
      ((∃ e, newScopeChecker L r = .error e) ↔
        ∃ text ∈ r, ∃ e, L.Compile (patternText text) = .error e)) := by
  rw [newScopeChecker_of_short L r hshort]
  have hiff : (∃ e, loadLines L r { patterns := [], antipatterns := [] } = .error e) ↔
      ∃ text ∈ r, isBlank text = false ∧ ∃ e, L.Compile (patternText text) = .error e := by
    constructor
    · rintro ⟨e, he⟩
      obtain ⟨pre, text, post, hr, hb, hc, _⟩ := loadLines_first_error L r _ e he
      exact ⟨text, by simp [hr], hb, e, hc⟩
    · rintro ⟨text, hm, hb, hc⟩
      exact loadLines_error_of_invalid L r _ text hm hb hc
  refine ⟨hiff, fun e he => loadLines_first_error L r _ e he, ?_, ?_⟩
  · intro hall
    cases hres : loadLines L r { patterns := [], antipatterns := [] } with
    | ok s => exact ⟨s, rfl⟩
    | error e =>
      obtain ⟨text, hm, hb, e2, hc⟩ := hiff.mp ⟨e, hres⟩
      obtain ⟨re, hre⟩ := hall text hm hb
      rw [hre] at hc
      cases hc
  · rintro ⟨re, hre⟩
    rw [hiff]
    constructor
    · rintro ⟨text, hm, _, hc⟩
      exact ⟨text, hm, hc⟩
    · rintro ⟨text, hm, e, hc⟩
      refine ⟨text, hm, ?_, e, hc⟩
      cases hb : isBlank text
      · rfl
      · rw [patternText_of_blank text hb, hre] at hc
        cases hc

/-- C8 witness: in the source `example\.com$`, `!(`, `^test$` the second line does not compile,
and the load fails with its error although the first line compiled. -/
theorem newScopeChecker_all_or_nothing_witness :
    newScopeChecker sampleLib ["example\\.com$", "!(", "^test$"] = .error "error parsing regexp" ∧
    (∃ re, sampleLib.Compile (patternText "example\\.com$") = .ok re) ∧
    ∃ pre text post, ["example\\.com$", "!(", "^test$"] = pre ++ text :: post ∧
      isBlank text = false ∧
      sampleLib.Compile (patternText text) = .error "error parsing regexp" ∧
      ∀ t ∈ pre, isBlank t = false → ∃ re, sampleLib.Compile (patternText t) = .ok re :=
  ⟨rfl, ⟨_, rfl⟩,
    (newScopeChecker_all_or_nothing sampleLib ["example\\.com$", "!(", "^test$"]
      (by decide)).2.1
      "error parsing regexp" rfl⟩

/-! ## The output -/

theorem loadLines_of_blank (L : Lib) (r : List String) (s0 : scopeChecker L)
    (hr : ∀ text ∈ r, isBlank text = true) : loadLines L r s0 = .ok s0 := by
  induction r with
  | nil => rfl
  | cons text rest ih =>
    have hb : TrimSpace text = "" :=
      (TrimSpace_eq_empty_iff text).mpr (hr text (List.mem_cons_self _ _))
    rw [loadLines_cons_blank L text rest s0 hb]
    exact ih fun x hx => hr x (List.mem_cons_of_mem _ hx)

theorem inScope_of_no_patterns (L : Lib) (s : scopeChecker L) (hs : s.patterns = [])
    (d : String) : inScope L s d = false := by
  unfold inScope
  split
  · split
    · rfl
    · simp [scanAntipatterns_eq, hs, scanPatterns]
  · simp [scanAntipatterns_eq, hs, scanPatterns]

theorem printLoop_eq_filter (L : Lib) (checker : scopeChecker L) (showOutScope : Bool)
    (stdin : List String) :
    printLoop L checker showOutScope stdin =
      (stdin.map TrimSpace).filter (fun d => inScope L checker d != showOutScope) := by
  induction stdin with
  | nil => rfl
  | cons text rest ih =>
    cases hi : inScope L checker (TrimSpace text) <;> cases showOutScope <;>
      simp [printLoop, hi, ih]

theorem printLoop_append (L : Lib) (checker : scopeChecker L) (showOutScope : Bool)
    (xs ys : List String) :
    printLoop L checker showOutScope (xs ++ ys) =
      printLoop L checker showOutScope xs ++ printLoop L checker showOutScope ys := by
  simp [printLoop_eq_filter]

/-- C9, as stated, fails on a standard input with a long line: with an empty scope file and the
input `a`, a line of `MaxScanTokenSize` bytes, `b`, the mode `-osp` prints `a` only, because the
scanner stops at the long line. -/
theorem empty_scope_counterexample :
    main sampleLib (some []) true (["a"] ++ longLine :: ["b"]) = ["a"] ∧
    main sampleLib (some []) true (["a"] ++ longLine :: ["b"])
      ≠ (["a"] ++ longLine :: ["b"]).map TrimSpace := by
  have hmain : main sampleLib (some []) true (["a"] ++ longLine :: ["b"]) = ["a"] := by
    have h1 : main sampleLib (some []) true (["a"] ++ longLine :: ["b"])
        = printLines sampleLib { patterns := [], antipatterns := [] } true
            (["a"] ++ longLine :: ["b"]) := rfl
    rw [h1, printLines_long sampleLib _ true ["a"] ["b"] (by decide)]
    decide
  refine ⟨hmain, fun h => ?_⟩
  rw [hmain] at h
  have := congrArg List.length h
  simp at this

/-- C9 (amended): the empty scope.  Loading a source whose lines are all blank (none at all, or
empty or white space only) succeeds with empty inclusion and exclusion lists; for that checker
every input is out of scope; so for every standard input the default mode prints nothing, and for
every standard input whose lines are all shorter than `MaxScanTokenSize` (65536) bytes the mode
`-osp` prints every input line, trimmed, in order. -/
theorem empty_scope (L : Lib) (r : List String) (hr : ∀ text ∈ r, isBlank text = true) :
    newScopeChecker L r = .ok { patterns := [], antipatterns := [] } ∧
    (∀ d, inScope L { patterns := [], antipatterns := [] } d = false) ∧
    ∀ stdin, main L (some r) false stdin = [] ∧
      ((∀ text ∈ stdin, len text < MaxScanTokenSize) →
        main L (some r) true stdin = stdin.map TrimSpace) := by
  have hload : newScopeChecker L r = .ok { patterns := [], antipatterns := [] } := by
    rw [newScopeChecker_eq]
    exact loadLines_of_blank L _ _ fun t ht => hr t (mem_of_mem_linesRead r t ht)
  have hout : ∀ d, inScope L { patterns := [], antipatterns := [] } d = false :=
    fun d => inScope_of_no_patterns L _ rfl d
  refine ⟨hload, hout, fun stdin => ⟨?_, fun hshort => ?_⟩⟩
  · simp [main, hload, printLines_eq, printLoop_eq_filter, hout]
  · simp [main, hload, printLines_of_short L _ _ stdin hshort, printLoop_eq_filter, hout]

/-- C9 witness: a scope file of an empty line, a line of blanks and a line holding a tab. -/
theorem empty_scope_witness :
    (∀ text ∈ ["", "   ", "\t"], isBlank text = true) ∧
    main sampleLib (some ["", "   ", "\t"]) false [" a.com ", "https://b.org/x", ""] = [] ∧
    main sampleLib (some ["", "   ", "\t"]) true [" a.com ", "https://b.org/x", ""]
      = ["a.com", "https://b.org/x", ""] :=
  ⟨by decide,
    ((empty_scope sampleLib ["", "   ", "\t"] (by decide)).2.2 _).1,
    ((empty_scope sampleLib ["", "   ", "\t"] (by decide)).2.2
      [" a.com ", "https://b.org/x", ""]).2 (by decide)⟩

/-- C10, as stated, fails on a standard input with a long line: with the scope file `a` and the
input `a`, a line of `MaxScanTokenSize` bytes, `b`, the line `b` is out of scope and is printed
in neither mode, because the scanner stops at the long line. -/
theorem output_filter_counterexample :
    ∃ s : scopeChecker sampleLib, newScopeChecker sampleLib ["a"] = .ok s ∧
      inScope sampleLib s (TrimSpace "b") = false ∧
      printLines sampleLib s false (["a"] ++ longLine :: ["b"]) = ["a"] ∧
      printLines sampleLib s true (["a"] ++ longLine :: ["b"]) = [] := by
  refine ⟨⟨[⟨false, false, [Atom.lit 'a']⟩], []⟩, rfl, by decide, ?_, ?_⟩
  · rw [printLines_long sampleLib _ false ["a"] ["b"] (by decide)]
    decide
  · rw [printLines_long sampleLib _ true ["a"] ["b"] (by decide)]
    decide

/-- C10 (amended): the output filter.  For every checker and every standard input whose lines
are all shorter than `MaxScanTokenSize` (65536) bytes, the default mode prints the trimmed input
lines that are in scope and the mode `-osp` the trimmed input lines that are not, in input order,
and `main` prints just that once the scope file is loaded; every such line is printed in exactly
one of the two modes; a malformed URL is printed in the mode `-osp` only, and the lines before
and after it are printed as they are without it. -/
theorem output_filter (L : Lib) (checker : scopeChecker L) (stdin : List String)
    (hshort : ∀ text ∈ stdin, len text < MaxScanTokenSize) :
    printLines L checker false stdin =
      (stdin.map TrimSpace).filter (fun d => inScope L checker d) ∧
    printLines L checker true stdin =
      (stdin.map TrimSpace).filter (fun d => !inScope L checker d) ∧
    (∀ (sf : List String) (showOutScope : Bool), newScopeChecker L sf = .ok checker →
      main L (some sf) showOutScope stdin = printLines L checker showOutScope stdin) ∧
    (∀ pre text post, stdin = pre ++ text :: post →
      ∀ showOutScope, printLines L checker showOutScope stdin =
        printLines L checker showOutScope pre ++ printLines L checker showOutScope [text] ++
          printLines L checker showOutScope post) ∧
    (∀ text, len text < MaxScanTokenSize →
      (printLines L checker false [text] = [TrimSpace text] ∧
        printLines L checker true [text] = []) ∨
      (printLines L checker false [text] = [] ∧
        printLines L checker true [text] = [TrimSpace text])) ∧
    (∀ text e, len text < MaxScanTokenSize →
      isURL L (TrimSpace text) = true → L.Parse (TrimSpace text) = .error e →
      printLines L checker false [text] = [] ∧
        printLines L checker true [text] = [TrimSpace text]) := by
  have hone : ∀ (text : String) (b : Bool), len text < MaxScanTokenSize →
      printLines L checker b [text] = printLoop L checker b [text] := by
    intro text b ht
    apply printLines_of_short
    intro t hmem
    rw [List.mem_singleton.mp hmem]
    exact ht
  refine ⟨?_, ?_, ?_, ?_, ?_, ?_⟩
  · simp [printLines_of_short L checker _ stdin hshort, printLoop_eq_filter]
  · simp [printLines_of_short L checker _ stdin hshort, printLoop_eq_filter]
  · intro sf b h
    simp [main, h]
  · intro pre text post h b
    subst h
    have hpre : ∀ t ∈ pre, len t < MaxScanTokenSize :=
      fun t ht => hshort t (List.mem_append_left _ ht)
    have htext : len text < MaxScanTokenSize :=
      hshort text (List.mem_append_right _ (List.mem_cons_self _ _))
    have hpost : ∀ t ∈ post, len t < MaxScanTokenSize :=
      fun t ht => hshort t (List.mem_append_right _ (List.mem_cons_of_mem _ ht))
    have hsplit : pre ++ text :: post = pre ++ ([text] ++ post) := rfl
    rw [printLines_of_short L checker b _ hshort, printLines_of_short L checker b pre hpre,
      printLines_of_short L checker b post hpost, hone text b htext, hsplit, printLoop_append,
      printLoop_append, List.append_assoc]
  · intro text ht
    rw [hone text false ht, hone text true ht]
    cases hi : inScope L checker (TrimSpace text) <;> simp [printLoop, hi]
  · intro text e ht hu hp
    have hi := inScope_of_parse_error L checker (TrimSpace text) e hu hp
    rw [hone text false ht, hone text true ht]
    simp [printLoop, hi]

/-- C10 witness: with the scope file `example\.com$`, `!evil\.example\.com$` and five input
lines, the third a malformed URL. -/
theorem output_filter_witness :
    ∃ s : scopeChecker sampleLib,
      newScopeChecker sampleLib ["example\\.com$", "!evil\\.example\\.com$"] = .ok s ∧
      main sampleLib (some ["example\\.com$", "!evil\\.example\\.com$"]) false
        ["sub.example.com", " evil.example.com", "http://a b.example.com", "x.org ",
          "https://www.example.com/a"]
        = ["sub.example.com", "https://www.example.com/a"] ∧
      main sampleLib (some ["example\\.com$", "!evil\\.example\\.com$"]) true
        ["sub.example.com", " evil.example.com", "http://a b.example.com", "x.org ",
          "https://www.example.com/a"]
        = ["evil.example.com", "http://a b.example.com", "x.org"] ∧
      printLines sampleLib s false ["http://a b.example.com"] = [] ∧
      printLines sampleLib s true ["http://a b.example.com"] = ["http://a b.example.com"] :=
  ⟨_, rfl, by decide, by decide,
    (output_filter sampleLib _ [] (by decide)).2.2.2.2.2 "http://a b.example.com"
      "invalid character in host name" (by decide) (by decide) rfl⟩

/-! ## Startup errors -/

/-- C11, as stated, fails on a scope file with a long line: in the scope file `a`, a line of
`MaxScanTokenSize` bytes, `(` the last line does not compile, and with the input `a` the default
mode prints `a`, because the scanner stops at the long line and the load succeeds. -/
theorem main_startup_error_counterexample :
    isBlank "(" = false ∧
    (∃ e, sampleLib.Compile (patternText "(") = .error e) ∧
    main sampleLib (some (["a"] ++ longLine :: ["("])) false ["a"] = ["a"] := by
  refine ⟨by decide, ⟨_, rfl⟩, ?_⟩
  have hload : newScopeChecker sampleLib (["a"] ++ longLine :: ["("])
      = .ok ⟨[⟨false, false, [Atom.lit 'a']⟩], []⟩ := by
    rw [newScopeChecker_long sampleLib ["a"] ["("] (by decide)]
    rfl
  rw [main_of_ok sampleLib _ _ false ["a"] hload]
  decide

/-- C11 (amended): startup errors are fatal.  If the scope file cannot be opened, or if
`newScopeChecker` fails, or if the pattern text of one of its non-blank lines does not compile
and neither that line nor a line before it has `MaxScanTokenSize` (65536) bytes or more, `main`
prints nothing to standard output, in the default mode and in the mode `-osp`, whatever standard
input holds and whatever compiled before the failing line. -/
theorem main_startup_error (L : Lib) (showOutScope : Bool) (stdin : List String) :
    main L none showOutScope stdin = [] ∧
    (∀ (sf : List String) (e : L.Error), newScopeChecker L sf = .error e →
      main L (some sf) showOutScope stdin = []) ∧
    (∀ (pre post : List String) (text : String) (e : L.Error),
      (∀ t ∈ pre, len t < MaxScanTokenSize) → len text < MaxScanTokenSize →
      isBlank text = false → L.Compile (patternText text) = .error e →
      main L (some (pre ++ text :: post)) showOutScope stdin = []) := by
  refine ⟨rfl, ?_, ?_⟩
  · intro sf e h
    simp [main, h]
  · intro pre post text e hpre htext hb hc
    obtain ⟨e2, he2⟩ :=
      loadLines_error_of_invalid L (linesRead (pre ++ text :: post))
        { patterns := [], antipatterns := [] } text
        (mem_linesRead_of_short pre post text hpre htext) hb ⟨e, hc⟩
    have h : newScopeChecker L (pre ++ text :: post) = .error e2 := by
      rw [newScopeChecker_eq]
      exact he2
    simp [main, h]

/-- C11 witness: the scope file `example\.com$`, `(`: the first line compiles and would put
`sub.example.com` in scope, the second does not compile, and nothing is printed in either
mode. -/
theorem main_startup_error_witness :
    (∃ s : scopeChecker sampleLib, newScopeChecker sampleLib ["example\\.com$"] = .ok s ∧
      inScope sampleLib s "sub.example.com" = true) ∧
    isBlank "(" = false ∧
    sampleLib.Compile (patternText "(") = .error "error parsing regexp" ∧
    main sampleLib (some (["example\\.com$"] ++ "(" :: [])) false ["sub.example.com", "x.org"]
      = [] ∧
    main sampleLib (some (["example\\.com$"] ++ "(" :: [])) true ["sub.example.com", "x.org"]
      = [] :=
  ⟨⟨_, rfl, by decide⟩, by decide, rfl,
    (main_startup_error sampleLib false ["sub.example.com", "x.org"]).2.2
      ["example\\.com$"] [] "(" "error parsing regexp" (by decide) (by decide) (by decide) rfl,
    (main_startup_error sampleLib true ["sub.example.com", "x.org"]).2.2
      ["example\\.com$"] [] "(" "error parsing regexp" (by decide) (by decide) (by decide) rfl⟩

/-! ## Short-circuiting, order and monotonicity -/

theorem foldl_or_matches_acc (L : Lib) (t : String) (ps : List L.Regexp) (acc : Bool) :
    (ps.map fun p => L.MatchString p t).foldl (· || ·) acc
      = (acc || ps.any (fun p => L.MatchString p t)) := by
  induction ps generalizing acc with
  | nil => simp
  | cons p ps ih => simp [ih, Bool.or_assoc]

theorem foldl_or_matches (L : Lib) (t : String) (ps : List L.Regexp) :
    (ps.map fun p => L.MatchString p t).foldl (· || ·) false
      = ps.any (fun p => L.MatchString p t) := by
  rw [foldl_or_matches_acc]
  simp

/-- C13: the short-circuiting of `inScope` is an optimisation only.  For every checker and every
input, `inScope` returns the same boolean as the variant that evaluates every pattern and reduces
with logical OR, and as the variant that skips the exclusion scan when no inclusion pattern
matched. -/
theorem inScope_eq_variants (L : Lib) (s : scopeChecker L) (d : String) :
    inScope L s d = inScopeEvalAll L s d ∧ inScope L s d = inScopeSkipExclusion L s d := by
  constructor
  · unfold inScope inScopeEvalAll
    simp only [foldl_or_matches, scanPatterns_eq_any, scanAntipatterns_eq]
  · unfold inScope inScopeSkipExclusion
    split
    · split
      · rfl
      · rename_i h _
        cases hp : scanPatterns L h s.patterns <;> simp [scanAntipatterns_eq]
    · cases hp : scanPatterns L d s.patterns <;> simp [scanAntipatterns_eq]

theorem specInScope_congr (L : Lib) (s s' : scopeChecker L)
    (hp : ∀ p, p ∈ s.patterns ↔ p ∈ s'.patterns)
    (ha : ∀ q, q ∈ s.antipatterns ↔ q ∈ s'.antipatterns) (t : String) :
    specInScope L s t = specInScope L s' t := by
  have h1 : s.patterns.any (fun p => L.MatchString p t)
      = s'.patterns.any (fun p => L.MatchString p t) := by
    rw [Bool.eq_iff_iff]
    simp only [List.any_eq_true]
    exact ⟨fun ⟨p, hm, h⟩ => ⟨p, (hp p).mp hm, h⟩, fun ⟨p, hm, h⟩ => ⟨p, (hp p).mpr hm, h⟩⟩
  have h2 : s.antipatterns.any (fun p => L.MatchString p t)
      = s'.antipatterns.any (fun p => L.MatchString p t) := by
    rw [Bool.eq_iff_iff]
    simp only [List.any_eq_true]
    exact ⟨fun ⟨p, hm, h⟩ => ⟨p, (ha p).mp hm, h⟩, fun ⟨p, hm, h⟩ => ⟨p, (ha p).mpr hm, h⟩⟩
  simp only [specInScope, h1, h2]

theorem inScope_eq_match (L : Lib) (s : scopeChecker L) (d : String) :
    inScope L s d =
      if isURL L d then
        match getHostname L d with
        | .error _ => false
        | .ok h => specInScope L s h
      else specInScope L s d := by
  cases hu : isURL L d
  · simp [inScope_of_not_isURL L s d hu]
  · cases hh : getHostname L d with
    | error e =>
      simp [inScope, hu, hh]
    | ok h =>
      simp [inScope_of_hostname L s d h hu hh]

theorem inScope_congr (L : Lib) (s s' : scopeChecker L)
    (hp : ∀ p, p ∈ s.patterns ↔ p ∈ s'.patterns)
    (ha : ∀ q, q ∈ s.antipatterns ↔ q ∈ s'.antipatterns) (d : String) :
    inScope L s d = inScope L s' d := by
  rw [inScope_eq_match L s d, inScope_eq_match L s' d]
  simp only [specInScope_congr L s s' hp ha]

theorem mem_of_map_ok_eq (L : Lib) (ps : List L.Regexp) (texts : List String)
    (h : ps.map Except.ok = texts.map L.Compile) (p : L.Regexp) :
    p ∈ ps ↔ ∃ text ∈ texts, L.Compile text = .ok p := by
  have hmem : p ∈ ps ↔ (Except.ok p : Except L.Error L.Regexp) ∈ ps.map Except.ok := by
    simp
  rw [hmem, h]
  simp

theorem inclusionTexts_perm (r r' : List String) (h : r.Perm r') :
    (inclusionTexts r).Perm (inclusionTexts r') :=
  ((h.map TrimSpace).filter _).filter _

theorem exclusionTexts_perm (r r' : List String) (h : r.Perm r') :
    (exclusionTexts r).Perm (exclusionTexts r') :=
  (((h.map TrimSpace).filter _).filter _).map _

theorem newScopeChecker_error_iff (L : Lib) (r : List String)
    (hshort : ∀ text ∈ r, len text < MaxScanTokenSize) :
    (∃ e, newScopeChecker L r = .error e) ↔
      ∃ text ∈ r, isBlank text = false ∧ ∃ e, L.Compile (patternText text) = .error e := by
  rw [newScopeChecker_of_short L r hshort]
  constructor
  · rintro ⟨e, he⟩
    obtain ⟨pre, text, post, hr, hb, hc, _⟩ := loadLines_first_error L r _ e he
    exact ⟨text, by simp [hr], hb, e, hc⟩
  · rintro ⟨text, hm, hb, hc⟩
    exact loadLines_error_of_invalid L r _ text hm hb hc

theorem newScopeChecker_ok_iff (L : Lib) (r : List String) :
    (∃ s, newScopeChecker L r = .ok s) ↔ ¬ ∃ e, newScopeChecker L r = .error e := by
  cases h : newScopeChecker L r <;> simp

/-- C14, as stated, fails on a source with a long line: the source `(`, a line of
`MaxScanTokenSize` bytes does not load, and the same two lines in the other order load, because
the scanner stops at the long line before it reaches `(`. -/
theorem inScope_order_irrelevant_counterexample :
    List.Perm (["("] ++ longLine :: []) ([] ++ longLine :: ["("]) ∧
    (∃ e, newScopeChecker sampleLib (["("] ++ longLine :: []) = .error e) ∧
    (∃ s : scopeChecker sampleLib, newScopeChecker sampleLib ([] ++ longLine :: ["("]) = .ok s) := by
  refine ⟨List.Perm.swap _ _ _, ⟨"error parsing regexp", ?_⟩, ⟨⟨[], []⟩, ?_⟩⟩
  · rw [newScopeChecker_long sampleLib ["("] [] (by decide)]
    rfl
  · rw [newScopeChecker_long sampleLib [] ["("] (by decide)]
    rfl

/-- C14 (amended): the order of the patterns is irrelevant.  For every source whose lines are
all shorter than `MaxScanTokenSize` (65536) bytes and every permutation of its lines,
`newScopeChecker` succeeds on the one if and only if it succeeds on the other, and the two
checkers then classify every input alike; and `inScope` is the same for two checkers whose
inclusion lists and whose exclusion lists are permutations of each other. -/
theorem inScope_order_irrelevant (L : Lib) (r r' : List String) (hperm : r.Perm r')
    (hshort : ∀ text ∈ r, len text < MaxScanTokenSize) :
    ((∃ s, newScopeChecker L r = .ok s) ↔ ∃ s', newScopeChecker L r' = .ok s') ∧
    (∀ s s', newScopeChecker L r = .ok s → newScopeChecker L r' = .ok s' →
      ∀ d, inScope L s d = inScope L s' d) ∧
    (∀ s s' : scopeChecker L, s.patterns.Perm s'.patterns →
      s.antipatterns.Perm s'.antipatterns → ∀ d, inScope L s d = inScope L s' d) := by
  have hshort' : ∀ text ∈ r', len text < MaxScanTokenSize :=
    fun t ht => hshort t (hperm.mem_iff.mpr ht)
  refine ⟨?_, ?_, ?_⟩
  · rw [newScopeChecker_ok_iff, newScopeChecker_ok_iff, newScopeChecker_error_iff L r hshort,
      newScopeChecker_error_iff L r' hshort']
    apply not_congr
    constructor
    · rintro ⟨text, hm, h⟩
      exact ⟨text, hperm.mem_iff.mp hm, h⟩
    · rintro ⟨text, hm, h⟩
      exact ⟨text, hperm.mem_iff.mpr hm, h⟩
  · intro s s' hs hs' d
    rw [newScopeChecker_of_short L r hshort] at hs
    rw [newScopeChecker_of_short L r' hshort'] at hs'
    obtain ⟨h1, h2, _⟩ := loadLines_ok L r _ s hs
    obtain ⟨h1', h2', _⟩ := loadLines_ok L r' _ s' hs'
    simp only [List.map_nil, List.nil_append] at h1 h2 h1' h2'
    apply inScope_congr
    · intro p
      rw [mem_of_map_ok_eq L _ _ h1, mem_of_map_ok_eq L _ _ h1']
      constructor
      · rintro ⟨text, hm, h⟩
        exact ⟨text, (inclusionTexts_perm r r' hperm).mem_iff.mp hm, h⟩
      · rintro ⟨text, hm, h⟩
        exact ⟨text, (inclusionTexts_perm r r' hperm).mem_iff.mpr hm, h⟩
    · intro q
      rw [mem_of_map_ok_eq L _ _ h2, mem_of_map_ok_eq L _ _ h2']
      constructor
      · rintro ⟨text, hm, h⟩
        exact ⟨text, (exclusionTexts_perm r r' hperm).mem_iff.mp hm, h⟩
      · rintro ⟨text, hm, h⟩
        exact ⟨text, (exclusionTexts_perm r r' hperm).mem_iff.mpr hm, h⟩
  · intro s s' hp ha d
    exact inScope_congr L s s' (fun p => hp.mem_iff) (fun q => ha.mem_iff) d

/-- C14 witness: the scope file `!evil\.example\.com$`, `example\.com$`, `^test$` and the same
lines with the exclusion moved to the end: both load, and `evil.example.com` is classified
alike. -/
theorem inScope_order_irrelevant_witness :
    ∃ s s' : scopeChecker sampleLib,
      newScopeChecker sampleLib ["!evil\\.example\\.com$", "example\\.com$", "^test$"] = .ok s ∧
      newScopeChecker sampleLib ["example\\.com$", "^test$", "!evil\\.example\\.com$"] = .ok s' ∧
      inScope sampleLib s "evil.example.com" = inScope sampleLib s' "evil.example.com" ∧
      inScope sampleLib s "https://test/x" = inScope sampleLib s' "https://test/x" :=
  ⟨_, _, rfl, rfl,
    (inScope_order_irrelevant sampleLib
      ["!evil\\.example\\.com$", "example\\.com$", "^test$"]
      ["example\\.com$", "^test$", "!evil\\.example\\.com$"]
      (by decide) (by decide)).2.1 _ _ rfl rfl "evil.example.com",
    (inScope_order_irrelevant sampleLib
      ["!evil\\.example\\.com$", "example\\.com$", "^test$"]
      ["example\\.com$", "^test$", "!evil\\.example\\.com$"]
      (by decide) (by decide)).2.1 _ _ rfl rfl "https://test/x"⟩

theorem specInScope_mono (L : Lib) (s s' : scopeChecker L)
    (hp : ∀ p ∈ s.patterns, p ∈ s'.patterns)
    (ha : ∀ q ∈ s'.antipatterns, q ∈ s.antipatterns) (t : String)
    (h : specInScope L s t = true) : specInScope L s' t = true := by
  rw [specInScope_eq_true_iff] at h ⊢
  obtain ⟨⟨p, hm, hmatch⟩, hnone⟩ := h
  exact ⟨⟨p, hp p hm, hmatch⟩, fun q hq => hnone q (ha q hq)⟩

theorem inScope_mono (L : Lib) (s s' : scopeChecker L)
    (hp : ∀ p ∈ s.patterns, p ∈ s'.patterns)
    (ha : ∀ q ∈ s'.antipatterns, q ∈ s.antipatterns) (d : String)
    (h : inScope L s d = true) : inScope L s' d = true := by
  rw [inScope_eq_match] at h ⊢
  cases hu : isURL L d
  · simp only [hu, Bool.false_eq_true, if_false] at h ⊢
    exact specInScope_mono L s s' hp ha d h
  · simp only [hu, if_true] at h ⊢
    cases hh : getHostname L d with
    | error e => simp [hh] at h
    | ok t =>
      simp only [hh] at h ⊢
      exact specInScope_mono L s s' hp ha t h

theorem loadLines_append (L : Lib) (r1 r2 : List String) :
    ∀ s0 : scopeChecker L, loadLines L (r1 ++ r2) s0 =
      match loadLines L r1 s0 with
      | .error e => .error e
      | .ok s => loadLines L r2 s := by
  induction r1 with
  | nil =>
    intro s0
    simp [loadLines]
  | cons text rest ih =>
    intro s0
    by_cases hb : TrimSpace text = ""
    · rw [List.cons_append, loadLines_cons_blank L text _ s0 hb,
        loadLines_cons_blank L text rest s0 hb]
      exact ih s0
    · rw [List.cons_append, loadLines_cons L text _ s0 hb, loadLines_cons L text rest s0 hb]
      cases hc : L.Compile (patternText text) with
      | error e => rfl
      | ok re =>
        cases hs : startsWithBang (TrimSpace text)
        · simp only [Bool.false_eq_true, if_false]
          exact ih _
        · simp only [if_true]
          exact ih _

theorem loadLines_singleton (L : Lib) (text : String) (s s' : scopeChecker L)
    (h : loadLines L [text] s = .ok s') :
    (startsWithBang (TrimSpace text) = false →
      s'.antipatterns = s.antipatterns ∧ ∀ p ∈ s.patterns, p ∈ s'.patterns) ∧
    (startsWithBang (TrimSpace text) = true →
      s'.patterns = s.patterns ∧ ∀ q ∈ s.antipatterns, q ∈ s'.antipatterns) := by
  by_cases hb : TrimSpace text = ""
  · rw [loadLines_cons_blank L text [] s hb] at h
    simp only [loadLines, Except.ok.injEq] at h
    subst h
    exact ⟨fun _ => ⟨rfl, fun p hp => hp⟩, fun _ => ⟨rfl, fun q hq => hq⟩⟩
  · rw [loadLines_cons L text [] s hb] at h
    cases hc : L.Compile (patternText text) with
    | error e => simp [hc] at h
    | ok re =>
      simp only [hc] at h
      cases hs : startsWithBang (TrimSpace text)
      · simp only [hs, Bool.false_eq_true, if_false, loadLines, Except.ok.injEq] at h
        subst h
        exact ⟨fun _ => ⟨rfl, fun p hp => List.mem_append_left _ hp⟩, fun hf => by cases hf⟩
      · simp only [hs, if_true, loadLines, Except.ok.injEq] at h
        subst h
        exact ⟨fun hf => (by cases hf), fun _ => ⟨rfl, fun q hq => List.mem_append_left _ hq⟩⟩

/-- C15: scope is monotone in the pattern lists.  For every input `d`: a checker with more
inclusion patterns and the same exclusion patterns keeps `d` in scope when it was; a checker with
more exclusion patterns and the same inclusion patterns keeps `d` out of scope when it was; so a
line appended to a scope file that still loads does not take an input out of scope when it is an
inclusion line, and does not bring one into scope when it is an exclusion line. -/
theorem inScope_monotone (L : Lib) (d : String) :
    (∀ s s' : scopeChecker L, (∀ p ∈ s.patterns, p ∈ s'.patterns) →
      s'.antipatterns = s.antipatterns → inScope L s d = true → inScope L s' d = true) ∧
    (∀ s s' : scopeChecker L, (∀ q ∈ s.antipatterns, q ∈ s'.antipatterns) →
      s'.patterns = s.patterns → inScope L s d = false → inScope L s' d = false) ∧
    (∀ (r : List String) (text : String) (s s' : scopeChecker L),
      newScopeChecker L r = .ok s → newScopeChecker L (r ++ [text]) = .ok s' →
      (startsWithBang (TrimSpace text) = false → inScope L s d = true → inScope L s' d = true) ∧
      (startsWithBang (TrimSpace text) = true →
        inScope L s d = false → inScope L s' d = false)) := by
  have hinc : ∀ s s' : scopeChecker L, (∀ p ∈ s.patterns, p ∈ s'.patterns) →
      s'.antipatterns = s.antipatterns → inScope L s d = true → inScope L s' d = true := by
    intro s s' hp ha h
    exact inScope_mono L s s' hp (fun q hq => ha ▸ hq) d h
  have hexc : ∀ s s' : scopeChecker L, (∀ q ∈ s.antipatterns, q ∈ s'.antipatterns) →
      s'.patterns = s.patterns → inScope L s d = false → inScope L s' d = false := by
    intro s s' ha hp h
    cases h' : inScope L s' d
    · rfl
    · have := inScope_mono L s' s (fun p hm => hp ▸ hm) ha d h'
      rw [h] at this
      cases this
  refine ⟨hinc, hexc, ?_⟩
  intro r text s s' hs hs'
  rw [newScopeChecker_eq] at hs hs'
  rcases linesRead_append_singleton r text with hl | hl
  · rw [hl, hs] at hs'
    cases hs'
    exact ⟨fun _ h => h, fun _ h => h⟩
  · rw [hl] at hs'
    have happ := loadLines_append L (linesRead r) [text] { patterns := [], antipatterns := [] }
    rw [hs, hs'] at happ
    obtain ⟨h1, h2⟩ := loadLines_singleton L text s s' happ.symm
    constructor
    · intro hbang h
      exact hinc s s' (h1 hbang).2 (h1 hbang).1 h
    · intro hbang h
      exact hexc s s' (h2 hbang).2 (h2 hbang).1 h

/-- C15 witness: `^test$` appended to the scope file `example\.com$` leaves `sub.example.com` in
scope, and `!example` appended to it leaves `x.org` out of scope. -/
theorem inScope_monotone_witness :
    (∃ s s' : scopeChecker sampleLib,
      newScopeChecker sampleLib ["example\\.com$"] = .ok s ∧
      newScopeChecker sampleLib (["example\\.com$"] ++ ["^test$"]) = .ok s' ∧
      inScope sampleLib s "sub.example.com" = true ∧
      inScope sampleLib s' "sub.example.com" = true) ∧
    (∃ s s' : scopeChecker sampleLib,
      newScopeChecker sampleLib ["example\\.com$"] = .ok s ∧
      newScopeChecker sampleLib (["example\\.com$"] ++ ["!example"]) = .ok s' ∧
      inScope sampleLib s "x.org" = false ∧
      inScope sampleLib s' "x.org" = false) :=
  ⟨⟨_, _, rfl, rfl, by decide,
      ((inScope_monotone sampleLib "sub.example.com").2.2 ["example\\.com$"] "^test$" _ _ rfl
        rfl).1 (by decide) (by decide)⟩,
    ⟨_, _, rfl, rfl, by decide,
      ((inScope_monotone sampleLib "x.org").2.2 ["example\\.com$"] "!example" _ _ rfl
        rfl).2 (by decide) (by decide)⟩⟩

/-! ## The line `!` -/

theorem specInScope_of_antipattern (L : Lib) (s : scopeChecker L) (q : L.Regexp)
    (hq : q ∈ s.antipatterns) (t : String) (hm : L.MatchString q t = true) :
    specInScope L s t = false := by
  have hany : s.antipatterns.any (fun q => L.MatchString q t) = true :=
    List.any_eq_true.mpr ⟨q, hq, hm⟩
  simp [specInScope, hany]

theorem loadLines_cons_bang (L : Lib) (text : String) (tail : List Char) (rest : List String)
    (s0 : scopeChecker L) (ht : (TrimSpace text).data = '!' :: tail) :
    loadLines L (text :: rest) s0 =
      match L.Compile ⟨tail⟩ with
      | .error e => .error e
      | .ok re => loadLines L rest { s0 with antipatterns := s0.antipatterns ++ [re] } := by
  have hb : TrimSpace text ≠ "" := by
    intro h
    rw [h] at ht
    cases ht
  have hs : startsWithBang (TrimSpace text) = true := by
    simp [startsWithBang, ht]
  have hp : patternText text = ⟨tail⟩ := by
    simp [patternText, hs, ht]
  rw [loadLines_cons L text rest s0 hb, hp]
  simp [hs]

/-- C16, as stated, fails on a source with a long line: the empty pattern compiles and matches
every string, the source `a`, a line of `MaxScanTokenSize` bytes, `!` holds a `!` line, and the
checker loaded from it puts `a` in scope, because the scanner stops at the long line. -/
theorem bare_bang_line_counterexample :
    ∃ re, sampleLib.Compile "" = .ok re ∧ (∀ d, sampleLib.MatchString re d = true) ∧
      ∃ s : scopeChecker sampleLib,
        newScopeChecker sampleLib (["a"] ++ longLine :: ["!"]) = .ok s ∧
        (∃ text ∈ ["a"] ++ longLine :: ["!"], TrimSpace text = "!") ∧
        inScope sampleLib s "a" = true := by
  refine ⟨⟨false, false, []⟩, rfl, sampleMatch_empty,
    ⟨[⟨false, false, [Atom.lit 'a']⟩], []⟩, ?_, ⟨"!", ?_, by decide⟩, by decide⟩
  · rw [newScopeChecker_long sampleLib ["a"] ["!"] (by decide)]
    rfl
  · exact List.mem_append_right _ (List.mem_cons_of_mem _ (List.mem_cons_self _ _))

/-- C16 (amended): a bare `!` line is not blank.  A line whose trimmed form is `!` followed by `tail` is
not skipped; the text compiled is `tail`, that is the trimmed line without its first `!` and
without further trimming (the empty string for `!`, ` a` for `! a`, `!a` for `!!a`), and the
result is appended to the exclusion patterns.  So where the empty pattern compiles to a regexp
that matches every string, a checker loaded from a source with a `!` line, and with no line of
`MaxScanTokenSize` (65536) bytes or more, puts every input out of scope. -/
theorem bare_bang_line (L : Lib) :
    (∀ (text : String) (tail : List Char) (rest : List String) (s0 : scopeChecker L),
      (TrimSpace text).data = '!' :: tail →
      loadLines L (text :: rest) s0 =
        match L.Compile ⟨tail⟩ with
        | .error e => .error e
        | .ok re => loadLines L rest { s0 with antipatterns := s0.antipatterns ++ [re] }) ∧
    (∀ (rest : List String) (s0 : scopeChecker L),
      loadLines L (" ! " :: rest) s0 =
        match L.Compile "" with
        | .error e => .error e
        | .ok re => loadLines L rest { s0 with antipatterns := s0.antipatterns ++ [re] }) ∧
    (∀ (rest : List String) (s0 : scopeChecker L),
      loadLines L ("! a" :: rest) s0 =
        match L.Compile " a" with
        | .error e => .error e
        | .ok re => loadLines L rest { s0 with antipatterns := s0.antipatterns ++ [re] }) ∧
    (∀ (rest : List String) (s0 : scopeChecker L),
      loadLines L ("!!a" :: rest) s0 =
        match L.Compile "!a" with
        | .error e => .error e
        | .ok re => loadLines L rest { s0 with antipatterns := s0.antipatterns ++ [re] }) ∧
    (∀ (re : L.Regexp), L.Compile "" = .ok re → (∀ d, L.MatchString re d = true) →
      ∀ (r : List String) (s : scopeChecker L), (∀ text ∈ r, len text < MaxScanTokenSize) →
        (∃ text ∈ r, TrimSpace text = "!") →
        newScopeChecker L r = .ok s → ∀ d, inScope L s d = false) := by
  refine ⟨fun text tail rest s0 ht => loadLines_cons_bang L text tail rest s0 ht,
    fun rest s0 => loadLines_cons_bang L " ! " [] rest s0 (by decide),
    fun rest s0 => loadLines_cons_bang L "! a" [' ', 'a'] rest s0 (by decide),
    fun rest s0 => loadLines_cons_bang L "!!a" ['!', 'a'] rest s0 (by decide), ?_⟩
  intro re hre hall r s hshort ⟨text, hmem, htrim⟩ hs d
  rw [newScopeChecker_of_short L r hshort] at hs
  obtain ⟨_, h2, _⟩ := loadLines_ok L r _ s hs
  simp only [List.map_nil, List.nil_append] at h2
  have hin : re ∈ s.antipatterns := by
    rw [mem_of_map_ok_eq L _ _ h2]
    refine ⟨"", ?_, hre⟩
    unfold exclusionTexts
    refine List.mem_map.mpr ⟨"!", ?_, rfl⟩
    refine List.mem_filter.mpr ⟨List.mem_filter.mpr ⟨List.mem_map.mpr ⟨text, hmem, htrim⟩, ?_⟩, ?_⟩
    · decide
    · decide
  rw [inScope_eq_match]
  cases hu : isURL L d
  · simp only [Bool.false_eq_true, if_false]
    exact specInScope_of_antipattern L s re hin d (hall d)
  · simp only [if_true]
    cases hh : getHostname L d with
    | error e => rfl
    | ok t => exact specInScope_of_antipattern L s re hin t (hall t)

/-- C16 witness: the scope file `example\.com$`, `!`: the empty pattern compiles and matches
every string, and `sub.example.com`, in scope without the `!` line, is out of scope with it. -/
theorem bare_bang_line_witness :
    (∃ s : scopeChecker sampleLib, newScopeChecker sampleLib ["example\\.com$"] = .ok s ∧
      inScope sampleLib s "sub.example.com" = true) ∧
    (∃ s : scopeChecker sampleLib, newScopeChecker sampleLib ["example\\.com$", "!"] = .ok s ∧
      s.antipatterns.length = 1 ∧
      inScope sampleLib s "sub.example.com" = false) :=
  ⟨⟨_, rfl, by decide⟩,
    ⟨_, rfl, rfl,
      (bare_bang_line sampleLib).2.2.2.2 ⟨false, false, []⟩ rfl sampleMatch_empty
        ["example\\.com$", "!"] _ (by decide) ⟨"!", by decide, by decide⟩ rfl
        "sub.example.com"⟩⟩

/-! ## No index or slice is out of range -/

theorem utf8Encode_ne_nil (c : Char) : utf8Encode c ≠ [] := by
  unfold utf8Encode
  simp only
  split_ifs <;> simp

theorem bytes_length_pos (p : String) (hp : p ≠ "") : 0 < (bytes p).length := by
  unfold bytes
  rcases hd : p.data with _ | ⟨c, cs⟩
  · exfalso
    apply hp
    cases p
    simp_all
  · rw [List.flatMap_cons, List.length_append]
    have := List.length_pos.mpr (utf8Encode_ne_nil c)
    omega

theorem bytes_drop_one (p : String) (h : (bytes p).head? = some '!'.toNat) :
    bytes ⟨p.data.drop 1⟩ = (bytes p).drop 1 := by
  unfold bytes at h ⊢
  rcases hd : p.data with _ | ⟨c, cs⟩
  · rfl
  · rw [hd] at h
    have hc : c = '!' := by
      apply (utf8Encode_head c).mp
      rw [List.flatMap_cons] at h
      cases he : utf8Encode c with
      | nil => exact absurd he (utf8Encode_ne_nil c)
      | cons b bs =>
        rw [he] at h
        simpa using h
    subst hc
    rfl

theorem isURLChecked_eq (L : Lib) (s : String) : isURLChecked L s = some (isURL L s) := by
  unfold isURLChecked isURL
  simp only
  split_ifs with h
  · rfl
  · have h6 : 6 ≤ (bytes (TrimSpace (ToLower L s))).length := by
      unfold len at h
      omega
    have h5 : 5 ≤ (bytes (TrimSpace (ToLower L s))).length := by omega
    simp only [sliceTo, h5, h6, if_true]
    split_ifs with ha
    · simp [ha]
    · simp [ha]

theorem loadLinesChecked_eq (L : Lib) (r : List String) :
    ∀ s0 : scopeChecker L, loadLinesChecked L r s0 = some (loadLines L r s0) := by
  induction r with
  | nil =>
    intro s0
    rfl
  | cons text rest ih =>
    intro s0
    by_cases hb : TrimSpace text = ""
    · simp only [loadLinesChecked, loadLines, hb, if_true]
      exact ih s0
    · have hpos := bytes_length_pos (TrimSpace text) hb
      obtain ⟨b0, hb0⟩ : ∃ b0, (bytes (TrimSpace text))[0]? = some b0 := by
        cases hl : bytes (TrimSpace text) with
        | nil => simp [hl] at hpos
        | cons b bs => exact ⟨b, by simp⟩
      have hhead : (bytes (TrimSpace text)).head? = some b0 := by
        cases hl : bytes (TrimSpace text) with
        | nil => simp [hl] at hpos
        | cons b bs =>
          rw [hl] at hb0
          simpa using hb0
      have h1 : 1 ≤ (bytes (TrimSpace text)).length := hpos
      simp only [loadLinesChecked, loadLines, hb, if_false, indexByte, hpos, if_true, hb0,
        sliceFrom, h1, hhead, Option.some.injEq]
      by_cases hbang : b0 = '!'.toNat
      · simp only [hbang, if_true, decide_True]
        cases L.Compile ⟨(TrimSpace text).data.drop 1⟩ with
        | error e => rfl
        | ok re => exact ih _
      · simp only [hbang, if_false, decide_False, Bool.false_eq_true]
        cases L.Compile (TrimSpace text) with
        | error e => rfl
        | ok re => exact ih _

theorem inScopeChecked_eq (L : Lib) (s : scopeChecker L) (d : String) :
    inScopeChecked L s d = some (inScope L s d) := by
  unfold inScopeChecked inScope
  rw [isURLChecked_eq]
  cases isURL L d
  · simp
  · simp only [if_true]
    cases getHostname L d <;> rfl

/-- C17: no index or slice is out of range.  `p[0]` and `p[1:]` are in range on every non-empty
trimmed line, `s[:5]` and `s[:6]` on every string of at least 6 bytes, and `p[1:]` after a first
byte `!` is the string without its first rune; so `isURL`, `newScopeChecker` and `inScope` with
their bounds checks never panic and return what the definitions without the checks return, on
every input. -/
theorem no_out_of_range (L : Lib) :
    (∀ p : String, p ≠ "" →
      indexByte (bytes p) 0 ≠ none ∧ sliceFrom (bytes p) 1 ≠ none) ∧
    (∀ p : String, (bytes p).head? = some '!'.toNat →
      sliceFrom (bytes p) 1 = some (bytes ⟨p.data.drop 1⟩)) ∧
    (∀ t : String, ¬ len t < 6 →
      sliceTo (bytes t) 5 ≠ none ∧ sliceTo (bytes t) 6 ≠ none) ∧
    (∀ s : String, isURLChecked L s = some (isURL L s)) ∧
    (∀ (r : List String) (s0 : scopeChecker L),
      loadLinesChecked L r s0 = some (loadLines L r s0)) ∧
    (∀ r : List String, newScopeCheckerChecked L r = some (newScopeChecker L r)) ∧
    (∀ (s : scopeChecker L) (d : String), inScopeChecked L s d = some (inScope L s d)) := by
  refine ⟨?_, ?_, ?_, isURLChecked_eq L, fun r s0 => loadLinesChecked_eq L r s0,
    fun r => loadLinesChecked_eq L (scanLines r) _, inScopeChecked_eq L⟩
  · intro p hp
    have hpos := bytes_length_pos p hp
    have h1 : 1 ≤ (bytes p).length := hpos
    constructor
    · cases hl : bytes p with
      | nil => simp [hl] at hpos
      | cons b bs => simp [indexByte]
    · simp [sliceFrom, h1]
  · intro p h
    have h1 : 1 ≤ (bytes p).length := by
      cases hl : bytes p with
      | nil => simp [hl] at h
      | cons b bs => simp
    simp only [sliceFrom, h1, if_true, bytes_drop_one p h]
  · intro t h
    unfold len at h
    have h5 : 5 ≤ (bytes t).length := by omega
    have h6 : 6 ≤ (bytes t).length := by omega
    simp [sliceTo, h5, h6]

/-- C17 witness: the empty string, a string of blanks, strings shorter than 6 bytes, and the
scope file line `!`. -/
theorem no_out_of_range_witness :
    isURLChecked sampleLib "" = some false ∧
    isURLChecked sampleLib "   " = some false ∧
    isURLChecked sampleLib "http:" = some false ∧
    isURLChecked sampleLib "ab" = some false ∧
    loadLinesChecked sampleLib ["", "  ", "!"] { patterns := [], antipatterns := [] }
      = some (.ok { patterns := [], antipatterns := [⟨false, false, []⟩] }) ∧
    newScopeCheckerChecked sampleLib ["", "  ", "!"]
      = some (.ok { patterns := [], antipatterns := [⟨false, false, []⟩] }) ∧
    (∀ s : scopeChecker sampleLib, inScopeChecked sampleLib s "" = some (inScope sampleLib s "")) :=
  ⟨((no_out_of_range sampleLib).2.2.2.1 "").trans (congrArg some (by decide)),
    ((no_out_of_range sampleLib).2.2.2.1 "   ").trans (congrArg some (by decide)),
    ((no_out_of_range sampleLib).2.2.2.1 "http:").trans (congrArg some (by decide)),
    ((no_out_of_range sampleLib).2.2.2.1 "ab").trans (congrArg some (by decide)),
    ((no_out_of_range sampleLib).2.2.2.2.1 ["", "  ", "!"] _).trans (congrArg some rfl),
    ((no_out_of_range sampleLib).2.2.2.2.2.1 ["", "  ", "!"]).trans (congrArg some rfl),
    fun s => (no_out_of_range sampleLib).2.2.2.2.2.2 s ""⟩

/-! ## The shape of a URL -/

theorem toNat_injective (c a : Char) (h : c.toNat = a.toNat) : c = a := by
  apply Char.ext
  apply UInt32.ext
  exact h

theorem utf8Encode_ascii (a : Char) (ha : a.toNat < 128) : utf8Encode a = [a.toNat] := by
  unfold utf8Encode
  simp [ha]

theorem utf8Encode_not_ascii (c : Char) (hc : ¬ c.toNat < 128) :
    ∃ b bs, utf8Encode c = b :: bs ∧ 192 ≤ b := by
  unfold utf8Encode
  simp only
  split_ifs
  · exact ⟨_, _, rfl, by omega⟩
  · exact ⟨_, _, rfl, by omega⟩
  · exact ⟨_, _, rfl, by omega⟩

theorem take_bytes_ascii (as : List Char) (has : ∀ a ∈ as, a.toNat < 128) :
    ∀ d : List Char,
      (d.flatMap utf8Encode).take as.length = as.flatMap utf8Encode ↔
        ∃ rest, d = as ++ rest := by
  induction as with
  | nil =>
    intro d
    simp
  | cons a as ih =>
    intro d
    have ha : a.toNat < 128 := has a (List.mem_cons_self _ _)
    have has' : ∀ x ∈ as, x.toNat < 128 := fun x hx => has x (List.mem_cons_of_mem _ hx)
    rw [List.flatMap_cons, utf8Encode_ascii a ha]
    cases d with
    | nil => simp
    | cons c cs =>
      rw [List.flatMap_cons]
      by_cases hc : c.toNat < 128
      · rw [utf8Encode_ascii c hc]
        simp only [List.singleton_append, List.length_cons, List.take_succ_cons,
          List.cons.injEq, List.cons_append, List.nil_append]
        rw [ih has' cs]
        constructor
        · rintro ⟨h1, rest, h2⟩
          exact ⟨rest, toNat_injective c a h1, h2⟩
        · rintro ⟨rest, h1, h2⟩
          exact ⟨by rw [h1], rest, h2⟩
      · obtain ⟨b, bs, hb, hge⟩ := utf8Encode_not_ascii c hc
        rw [hb]
        simp only [List.singleton_append, List.length_cons, List.cons_append,
          List.take_succ_cons, List.cons.injEq, List.nil_append]
        constructor
        · rintro ⟨h1, _⟩
          omega
        · rintro ⟨rest, h1, _⟩
          rw [h1] at hc
          exact absurd ha hc

theorem length_le_bytes (d : List Char) : d.length ≤ (d.flatMap utf8Encode).length := by
  induction d with
  | nil => simp
  | cons c cs ih =>
    rw [List.flatMap_cons, List.length_append, List.length_cons]
    have := List.length_pos.mpr (utf8Encode_ne_nil c)
    omega

theorem bytes_take_http (t : String) :
    (bytes t).take 5 = bytes "http:" ↔ startsWith t "http:" :=
  take_bytes_ascii "http:".data (by decide) t.data

theorem bytes_take_https (t : String) :
    (bytes t).take 6 = bytes "https:" ↔ startsWith t "https:" :=
  take_bytes_ascii "https:".data (by decide) t.data

theorem isURL_eq_true_iff (L : Lib) (s : String) :
    isURL L s = true ↔
      6 ≤ len (TrimSpace (ToLower L s)) ∧
        (startsWith (TrimSpace (ToLower L s)) "http:" ∨
          startsWith (TrimSpace (ToLower L s)) "https:") := by
  unfold isURL
  simp only
  split_ifs with h
  · simp only [Bool.false_eq_true, false_iff, not_and]
    intro h6
    omega
  · simp only [Bool.or_eq_true, beq_iff_eq, bytes_take_http, bytes_take_https]
    constructor
    · intro hp
      exact ⟨by omega, hp⟩
    · intro hp
      exact hp.2

theorem length_of_startsWith (t lit : String) (rest : List Char)
    (hr : t.data = lit.data ++ rest) : t.data.length = lit.data.length + rest.length := by
  rw [hr, List.length_append]

theorem isURL_eq_true_iff_next (L : Lib) (s : String) :
    isURL L s = true ↔
      (∃ (c : Char) (rest : List Char),
          (TrimSpace (ToLower L s)).data = "http:".data ++ c :: rest) ∨
        startsWith (TrimSpace (ToLower L s)) "https:" := by
  rw [isURL_eq_true_iff]
  have h5 : "http:".data.length = 5 := rfl
  have h6 : "https:".data.length = 6 := rfl
  have hle : (TrimSpace (ToLower L s)).data.length ≤ len (TrimSpace (ToLower L s)) :=
    length_le_bytes _
  constructor
  · rintro ⟨hl, ⟨rest, hr⟩ | hs⟩
    · cases rest with
      | nil =>
        exfalso
        have hlen : len (TrimSpace (ToLower L s)) = 5 := by
          unfold len bytes
          rw [hr]
          rfl
        omega
      | cons c rest => exact Or.inl ⟨c, rest, hr⟩
    · exact Or.inr hs
  · rintro (⟨c, rest, hr⟩ | ⟨rest, hr⟩)
    · refine ⟨?_, Or.inl ⟨c :: rest, hr⟩⟩
      have := length_of_startsWith _ "http:" (c :: rest) hr
      rw [h5, List.length_cons] at this
      omega
    · refine ⟨?_, Or.inr ⟨rest, hr⟩⟩
      have := length_of_startsWith _ "https:" rest hr
      rw [h6] at this
      omega

theorem isURL_eq_true_iff_length (L : Lib) (s : String) :
    isURL L s = true ↔
      6 ≤ (TrimSpace (ToLower L s)).length ∧
        (startsWith (TrimSpace (ToLower L s)) "http:" ∨
          startsWith (TrimSpace (ToLower L s)) "https:") := by
  rw [isURL_eq_true_iff_next]
  have hlen : (TrimSpace (ToLower L s)).length = (TrimSpace (ToLower L s)).data.length := rfl
  have h5 : "http:".data.length = 5 := rfl
  have h6 : "https:".data.length = 6 := rfl
  rw [hlen]
  constructor
  · rintro (⟨c, rest, hr⟩ | ⟨rest, hr⟩)
    · refine ⟨?_, Or.inl ⟨c :: rest, hr⟩⟩
      have := length_of_startsWith _ "http:" (c :: rest) hr
      rw [h5, List.length_cons] at this
      omega
    · refine ⟨?_, Or.inr ⟨rest, hr⟩⟩
      have := length_of_startsWith _ "https:" rest hr
      rw [h6] at this
      omega
  · rintro ⟨hl, ⟨rest, hr⟩ | hs⟩
    · cases rest with
      | nil =>
        exfalso
        have := length_of_startsWith _ "http:" [] hr
        rw [h5, List.length_nil] at this
        omega
      | cons c rest => exact Or.inl ⟨c, rest, hr⟩
    · exact Or.inr hs

theorem runeToLower_asciiLower (L : Lib) (c : Char) :
    runeToLower L (asciiLower c) = runeToLower L c := by
  unfold asciiLower
  split_ifs with h
  · have hA : 'A'.toNat = 65 := rfl
    have hZ : 'Z'.toNat = 90 := rfl
    have ha : 'a'.toNat = 97 := rfl
    rw [hA, hZ] at h
    have hv : (Char.ofNat (c.toNat + 32)).toNat = c.toNat + 32 := by
      have hvalid : (c.toNat + 32).isValidChar := by
        left
        omega
      unfold Char.ofNat
      rw [dif_pos hvalid]
      rfl
    unfold runeToLower
    rw [hv, hA, hZ, ha]
    have h1 : c.toNat + 32 ≤ 0x7F := by omega
    have h2 : ¬ (65 ≤ c.toNat + 32 ∧ c.toNat + 32 ≤ 90) := by omega
    have h3 : c.toNat ≤ 0x7F := by omega
    simp only [h1, h2, h3, h, if_true, if_false, and_self]
  · rfl

theorem ToLower_congr (L : Lib) (s s' : String)
    (h : s.data.map asciiLower = s'.data.map asciiLower) : ToLower L s = ToLower L s' := by
  have hmap : ∀ l : List Char,
      l.map (runeToLower L) = (l.map asciiLower).map (runeToLower L) := by
    intro l
    rw [List.map_map]
    apply List.map_congr_left
    intro c _
    exact (runeToLower_asciiLower L c).symm
  unfold ToLower
  rw [hmap s.data, hmap s'.data, h]

theorem runeToLower_isSpace (L : Lib) (c : Char) (hc : IsSpace c = true)
    (ht : c.toNat ≤ 0x7F ∨ IsSpace (L.caseTable c) = true) :
    IsSpace (runeToLower L c) = true := by
  unfold runeToLower
  split_ifs with h1 h2
  · exfalso
    have hA : 'A'.toNat = 65 := rfl
    have hZ : 'Z'.toNat = 90 := rfl
    rw [hA, hZ] at h2
    unfold IsSpace at hc
    have h3 : c.toNat ≤ 0xFF := by omega
    simp only [h3, if_true, Bool.or_eq_true, decide_eq_true_eq] at hc
    omega
  · exact hc
  · rcases ht with ht | ht
    · exact absurd ht h1
    · exact ht

theorem isURL_blank_around (L : Lib) (w1 s w2 : String)
    (h : ∀ c ∈ w1.data ++ w2.data, IsSpace (runeToLower L c) = true) :
    isURL L (w1 ++ s ++ w2) = isURL L s := by
  have ht : TrimSpace (ToLower L (w1 ++ s ++ w2)) = TrimSpace (ToLower L s) := by
    unfold TrimSpace ToLower
    simp only [String.data_append, List.map_append]
    rw [trim_append]
    · intro c hc
      obtain ⟨x, hx, rfl⟩ := List.mem_map.mp hc
      exact h x (List.mem_append_left _ hx)
    · intro c hc
      obtain ⟨x, hx, rfl⟩ := List.mem_map.mp hc
      exact h x (List.mem_append_right _ hx)
  unfold isURL
  rw [ht]

/-- C12: the shape `isURL` accepts.  With `t` the input lower-cased and then trimmed, `isURL` is
true exactly when `t` has at least 6 characters (equivalently, at least 6 bytes) and begins with
`http:` or `https:`, that is when `t` is `http:` followed by at least one more character or
begins with `https:`.  So `http:` and `httpx:a` are rejected, `https:` and `  HTTP://x ` are
accepted; the result does not change when the case of ASCII letters changes, nor when white
space is added around the input (for the white space above ASCII, given that the case table
maps white space to white space, as the Unicode table does). -/
theorem isURL_spec (L : Lib) :
    (∀ s : String, isURL L s = true ↔
      6 ≤ (TrimSpace (ToLower L s)).length ∧
        (startsWith (TrimSpace (ToLower L s)) "http:" ∨
          startsWith (TrimSpace (ToLower L s)) "https:")) ∧
    (∀ s : String, isURL L s = true ↔
      6 ≤ len (TrimSpace (ToLower L s)) ∧
        (startsWith (TrimSpace (ToLower L s)) "http:" ∨
          startsWith (TrimSpace (ToLower L s)) "https:")) ∧
    (∀ s : String, isURL L s = true ↔
      (∃ (c : Char) (rest : List Char),
          (TrimSpace (ToLower L s)).data = "http:".data ++ c :: rest) ∨
        startsWith (TrimSpace (ToLower L s)) "https:") ∧
    isURL L "http:" = false ∧
    isURL L "https:" = true ∧
    isURL L "  HTTP://x " = true ∧
    isURL L "httpx:a" = false ∧
    (∀ s s' : String, s.data.map asciiLower = s'.data.map asciiLower →
      isURL L s = isURL L s') ∧
    (∀ w1 s w2 : String, (∀ c ∈ w1.data ++ w2.data, IsSpace c = true ∧ c.toNat ≤ 0x7F) →
      isURL L (w1 ++ s ++ w2) = isURL L s) ∧
    ((∀ c : Char, IsSpace c = true → IsSpace (L.caseTable c) = true) →
      ∀ w1 s w2 : String, isBlank w1 = true → isBlank w2 = true →
        isURL L (w1 ++ s ++ w2) = isURL L s) := by
  refine ⟨isURL_eq_true_iff_length L, isURL_eq_true_iff L, isURL_eq_true_iff_next L,
    rfl, rfl, rfl, rfl, ?_, ?_, ?_⟩
  · intro s s' h
    unfold isURL
    rw [ToLower_congr L s s' h]
  · intro w1 s w2 h
    apply isURL_blank_around
    intro c hc
    exact runeToLower_isSpace L c (h c hc).1 (Or.inl (h c hc).2)
  · intro htable w1 s w2 h1 h2
    apply isURL_blank_around
    intro c hc
    have hsp : IsSpace c = true := by
      rcases List.mem_append.mp hc with hc | hc
      · exact List.all_eq_true.mp h1 c hc
      · exact List.all_eq_true.mp h2 c hc
    exact runeToLower_isSpace L c hsp (Or.inr (htable c hsp))

/-- C12 witness: `HtTpS://X.org` against `https://x.org`, and `http://x` between a tab and a
no-break space, an ideographic space and a blank. -/
theorem isURL_spec_witness :
    isURL sampleLib "https://x.org" = true ∧
    isURL sampleLib "HtTpS://X.org" = isURL sampleLib "https://x.org" ∧
    isBlank ⟨['\t', Char.ofNat 0xA0]⟩ = true ∧
    isBlank ⟨[Char.ofNat 0x3000, ' ']⟩ = true ∧
    isURL sampleLib (⟨['\t', Char.ofNat 0xA0]⟩ ++ "http://x" ++ ⟨[Char.ofNat 0x3000, ' ']⟩)
      = isURL sampleLib "http://x" :=
  ⟨by decide,
    (isURL_spec sampleLib).2.2.2.2.2.2.2.1 "HtTpS://X.org" "https://x.org" (by decide),
    by decide, by decide,
    (isURL_spec sampleLib).2.2.2.2.2.2.2.2.2 (fun _ h => h) ⟨['\t', Char.ofNat 0xA0]⟩ "http://x"
      ⟨[Char.ofNat 0x3000, ' ']⟩ (by decide) (by decide)⟩

/-! ## A URL and its hostname -/

theorem mem_of_mem_trim (l : List Char) (c : Char)
    (h : c ∈ ((l.dropWhile IsSpace).reverse.dropWhile IsSpace).reverse) : c ∈ l := by
  have h1 := List.mem_reverse.mp h
  have h2 := (List.dropWhile_sublist IsSpace).subset h1
  have h3 := List.mem_reverse.mp h2
  exact (List.dropWhile_sublist IsSpace).subset h3

theorem isURL_of_no_colon (L : Lib) (h : String)
    (hc : ∀ c ∈ h.data, runeToLower L c ≠ ':') : isURL L h = false := by
  cases hu : isURL L h
  · rfl
  · exfalso
    have hmem : ':' ∈ (TrimSpace (ToLower L h)).data := by
      rcases (isURL_eq_true_iff_next L h).mp hu with ⟨c, rest, hr⟩ | ⟨rest, hr⟩
      · rw [hr]
        exact List.mem_append_left _ (by decide)
      · rw [hr]
        exact List.mem_append_left _ (by decide)
    have hlow : ':' ∈ (ToLower L h).data := mem_of_mem_trim _ _ hmem
    obtain ⟨c, hcm, hceq⟩ := List.mem_map.mp hlow
    exact hc c hcm hceq

theorem runeToLower_sampleLib_colon (c : Char) (h : runeToLower sampleLib c = ':') :
    c = ':' := by
  unfold runeToLower at h
  split_ifs at h with h1 h2
  · exfalso
    have hA : 'A'.toNat = 65 := rfl
    have hZ : 'Z'.toNat = 90 := rfl
    have ha : 'a'.toNat = 97 := rfl
    rw [hA, hZ] at h2
    rw [hA, ha] at h
    have hv : (Char.ofNat (c.toNat + (97 - 65))).toNat = c.toNat + (97 - 65) := by
      have hvalid : (c.toNat + (97 - 65)).isValidChar := by
        left
        omega
      unfold Char.ofNat
      rw [dif_pos hvalid]
      rfl
    rw [h] at hv
    have hcolon : ':'.toNat = 58 := rfl
    omega
  · exact h
  · exact h

theorem validOptionalPort_eq_true (p : List Char) (h : validOptionalPort p = true) :
    p = [] ∨ ∃ ds, p = ':' :: ds ∧ ':' ∉ ds := by
  cases p with
  | nil => exact Or.inl rfl
  | cons c cs =>
    right
    simp only [validOptionalPort, Bool.and_eq_true, decide_eq_true_eq] at h
    refine ⟨cs, by rw [h.1], ?_⟩
    intro hmem
    have := List.all_eq_true.mp h.2 ':' hmem
    exact absurd this (by decide)

theorem sampleHostname_no_colon (host : List Char)
    (hv : validOptionalPort (host.dropWhile (· ≠ ':')) = true) :
    ':' ∉ (sampleHostname ⟨⟨host⟩⟩).data := by
  have key : ∃ name port, host = name ++ port ∧ ':' ∉ name ∧
      port = host.dropWhile (· ≠ ':') := by
    refine ⟨_, _, (List.takeWhile_append_dropWhile _ _).symm, ?_, rfl⟩
    intro hm
    have := List.mem_takeWhile_imp hm
    simp at this
  obtain ⟨name, port, hhost, hname, hport⟩ := key
  rw [← hport] at hv
  clear hport
  subst hhost
  rcases validOptionalPort_eq_true port hv with hp | ⟨ds, hp, hds⟩
  · subst hp
    have hcontains : (name ++ []).contains ':' = false := by
      simpa using hname
    simp only [sampleHostname, splitLastColon, hcontains]
    simpa using hname
  · subst hp
    have hcontains : (name ++ ':' :: ds).contains ':' = true := by
      simp
    have hrev : (name ++ ':' :: ds).reverse = ds.reverse ++ ':' :: name.reverse := by
      simp
    have htail : (name ++ ':' :: ds).reverse.takeWhile (· ≠ ':') = ds.reverse := by
      rw [hrev, List.takeWhile_append_of_pos]
      · simp
      · intro a ha
        have : a ≠ ':' := fun h => hds (h ▸ List.mem_reverse.mp ha)
        simpa using this
    have hlen : (name ++ ':' :: ds).length - ds.length - 1 = name.length := by
      simp only [List.length_append, List.length_cons]
      omega
    have htake : (name ++ ':' :: ds).take name.length = name := by
      simp
    simp only [sampleHostname, splitLastColon, hcontains, htail, List.reverse_reverse,
      List.length_reverse, hlen, htake, if_true, hv]
    exact hname

theorem sampleParseHost_ok (host : List Char) (h : String)
    (hh : sampleParseHost host = .ok h) :
    h = ⟨host⟩ ∧ validOptionalPort (host.dropWhile (· ≠ ':')) = true := by
  unfold sampleParseHost at hh
  split_ifs at hh with h1 h2
  · simp only [Except.ok.injEq] at hh
    refine ⟨hh.symm, ?_⟩
    simpa using h1

theorem sampleParse_host (d : String) (url : SampleURL) (h : sampleParse d = .ok url) :
    url.Host = "" ∨ ∃ host, url.Host = ⟨host⟩ ∧
      validOptionalPort (host.dropWhile (· ≠ ':')) = true := by
  unfold sampleParse at h
  dsimp only at h
  split_ifs at h
  split at h
  · cases h
  · split_ifs at h
    · cases h
      exact Or.inl rfl
    · cases h
      exact Or.inl rfl
    · split at h
      · cases h
      · rename_i host hph
        cases h
        exact Or.inr ⟨_, (sampleParseHost_ok _ _ hph).1, (sampleParseHost_ok _ _ hph).2⟩
    · cases h
      exact Or.inl rfl

theorem sampleLib_hostname_not_url (d : String) (url : sampleLib.URL)
    (_ : isURL sampleLib d = true) (h : sampleLib.Parse d = .ok url) :
    isURL sampleLib (sampleLib.Hostname url) = false := by
  apply isURL_of_no_colon
  intro c hc hcolon
  have hceq : c = ':' := runeToLower_sampleLib_colon c hcolon
  subst hceq
  have hmem : ':' ∈ (sampleHostname url).data := hc
  rcases sampleParse_host d url h with hempty | ⟨host, hhost, hv⟩
  · have hurl : url = ⟨""⟩ := by
      cases url
      simp_all
    rw [hurl] at hmem
    exact absurd hmem (by decide)
  · have hurl : url = ⟨⟨host⟩⟩ := by
      cases url
      simp_all
    rw [hurl] at hmem
    exact sampleHostname_no_colon host hv hmem

/-- C6: a URL is classified like its bare hostname.  For every scope checker and every
URL-shaped input `u` that parses with the hostname `h`, `inScope u = inScope h`.  The hypothesis
`hlib` is a fact of `net/url`: the hostname of a URL-shaped input that parses is not URL-shaped
itself (in Go 1.26 a host holds no colon but the one before its port, or is a bracketed IP
address, so a hostname does not begin with `http:`). -/
theorem inScope_url_eq_hostname (L : Lib)
    (hlib : ∀ (d : String) (url : L.URL), isURL L d = true → L.Parse d = .ok url →
      isURL L (L.Hostname url) = false)
    (s : scopeChecker L) (u h : String)
    (hu : isURL L u = true) (hh : getHostname L u = .ok h) :
    inScope L s u = inScope L s h := by
  have hn : isURL L h = false := by
    unfold getHostname at hh
    cases hp : L.Parse u with
    | error e =>
      rw [hp] at hh
      cases hh
    | ok url =>
      rw [hp] at hh
      simp only [Except.ok.injEq] at hh
      rw [← hh]
      exact hlib u url hu hp
  rw [inScope_of_hostname L s u h hu hh, inScope_of_not_isURL L s h hn]

/-- C6 witness: `https://a.com/x?y=1` is classified like `a.com`, and with the scope file
`^test$` the input `https://test/path?x=1` is in scope as `test` is. -/
theorem inScope_url_eq_hostname_witness :
    (∃ s : scopeChecker sampleLib, newScopeChecker sampleLib ["a\\.com$"] = .ok s ∧
      inScope sampleLib s "https://a.com/x?y=1" = inScope sampleLib s "a.com") ∧
    (∃ s : scopeChecker sampleLib, newScopeChecker sampleLib ["^test$"] = .ok s ∧
      inScope sampleLib s "test" = true ∧
      inScope sampleLib s "https://test/path?x=1" = inScope sampleLib s "test") :=
  ⟨⟨_, rfl,
      inScope_url_eq_hostname sampleLib sampleLib_hostname_not_url _ "https://a.com/x?y=1"
        "a.com" (by decide) rfl⟩,
    ⟨_, rfl, by decide,
      inScope_url_eq_hostname sampleLib sampleLib_hostname_not_url _ "https://test/path?x=1"
        "test" (by decide) rfl⟩⟩

end Inscope
